import Mathlib

/-!
Verification development for the streaming authenticated-encryption codec of
the piper repository (src/common/src/crypto/{mod,reader,writer}.rs).

Bytes are modelled as `Nat`; machine integers as `Nat`/`Int` with explicit
bounds (`% 2^32` semantics made explicit where the source relies on them).
The external crates `argon2` and `chacha20poly1305` are modelled by
executable deterministic stand-ins; the development relies only on their
determinism, output lengths, and the xor-involution of the stream cipher,
properties the real primitives share.
-/

namespace Piper

/-- HEADER_SIZE from mod.rs: 1 (magic) + 1 (version) + 4 (blockcounter) + 10 (salt). -/
def HEADER_SIZE : Nat := 16

/-- POLY_TAG_SIZE from mod.rs. -/
def POLY_TAG_SIZE : Nat := 16

/-- PAYLOAD_SIZE from mod.rs. -/
def PAYLOAD_SIZE : Nat := 512

/-- BLOCK_SIZE from mod.rs: HEADER_SIZE + PAYLOAD_SIZE + POLY_TAG_SIZE = 544. -/
def BLOCK_SIZE : Nat := HEADER_SIZE + PAYLOAD_SIZE + POLY_TAG_SIZE

/-- One more than u32::MAX; counters live below this bound. -/
def U32_MOD : Nat := 4294967296

/-- COUNTER_HINT from mod.rs: u32::from_be_bytes([b'5', b'4', b'4', b'b']). -/
def COUNTER_HINT : Nat := 53 * 16777216 + 52 * 65536 + 52 * 256 + 98

/-- The 256-byte MAGIC table from mod.rs (the raw byte string literal),
transcribed byte for byte. Its first 16 bytes spell out the ASCII text
of the stream marker line. -/
def MAGIC : List Nat :=
  [35, 116, 111, 99, 35, 115, 116, 114, 101, 97, 109, 95, 95, 95, 95, 95, 10,
   107, 101, 121, 61, 97, 114, 103, 111, 110, 50, 105, 118, 49, 51, 40, 116,
   61, 51, 44, 109, 61, 54, 53, 53, 51, 54, 44, 112, 61, 49, 44, 115, 97, 108,
   116, 61, 83, 65, 76, 84, 58, 49, 48, 124, 39, 35, 116, 111, 99, 39, 44, 80,
   76, 65, 73, 78, 41, 10, 110, 111, 110, 99, 101, 61, 83, 65, 76, 84, 91, 48,
   58, 56, 93, 124, 67, 79, 85, 78, 84, 69, 82, 10, 109, 97, 103, 105, 99, 61,
   105, 102, 32, 67, 79, 85, 78, 84, 69, 82, 60, 49, 54, 32, 39, 35, 116, 111,
   99, 35, 115, 116, 114, 101, 97, 109, 95, 95, 95, 95, 95, 39, 91, 67, 79,
   85, 78, 84, 69, 82, 93, 32, 101, 108, 115, 101, 32, 63, 10, 118, 61, 49,
   10, 101, 110, 99, 44, 116, 97, 103, 61, 99, 104, 97, 99, 104, 97, 50, 48,
   45, 112, 111, 108, 121, 49, 51, 48, 53, 40, 110, 111, 110, 99, 101, 44,
   107, 101, 121, 41, 10, 99, 61, 67, 79, 85, 78, 84, 69, 82, 58, 52, 98, 101,
   94, 39, 53, 52, 52, 98, 39, 10, 109, 97, 103, 105, 99, 58, 49, 124, 118,
   58, 49, 124, 99, 58, 52, 124, 83, 65, 76, 84, 58, 49, 48, 124, 101, 110,
   99, 58, 53, 49, 50, 124, 116, 97, 103, 58, 49, 54, 10, 10]

/-- Big-endian encoding of a u32 value into four bytes
(`u32::to_be_bytes`). -/
def toBe32 (n : Nat) : List Nat :=
  [n / 16777216 % 256, n / 65536 % 256, n / 256 % 256, n % 256]

/-- Big-endian decoding of four bytes into a u32 value
(`u32::from_be_bytes`). -/
def fromBe32 (l : List Nat) : Nat :=
  l.foldl (fun a b => a * 256 + b) 0

/-- The block header from mod.rs: magic, version nibble, variant nibble,
32-bit block counter and 10-byte salt. -/
structure Header where
  magic : Nat
  version : Nat
  variant : Nat
  blockcounter : Nat
  salt : List Nat
  deriving DecidableEq, Repr

/-- Serialization `impl From<Header> for [u8; HEADER_SIZE]` (mod.rs):
byte 0 is `MAGIC[blockcounter % 256]` (the stored `magic` field is ignored),
byte 1 packs the version and variant nibbles, bytes 2..6 hold the counter
xored with COUNTER_HINT in big-endian order, bytes 6..16 the salt. -/
def Header.toBytes (h : Header) : List Nat :=
  [MAGIC.getD (h.blockcounter % 256) 0, (h.version <<< 4) ||| h.variant]
    ++ toBe32 (h.blockcounter ^^^ COUNTER_HINT) ++ h.salt

/-- Parsing `impl From<[u8; HEADER_SIZE]> for Header` (mod.rs). -/
def Header.ofBytes (d : List Nat) : Header :=
  { magic := d.getD 0 0
    version := (d.getD 1 0 >>> 4) &&& 15
    variant := d.getD 1 0 &&& 15
    blockcounter := fromBe32 ((d.drop 2).take 4) ^^^ COUNTER_HINT
    salt := (d.drop 6).take 10 }

/-- `Header::magic_ok` from mod.rs: the magic byte passes when the block
counter is at least 16, or when it equals `MAGIC[blockcounter % 256]`. -/
def Header.magic_ok (h : Header) : Bool :=
  decide (16 ≤ h.blockcounter) ||
    decide (h.magic = MAGIC.getD (h.blockcounter % 256) 0)

/-- `payload_nonce` from mod.rs: first 8 salt bytes followed by the
big-endian block counter. -/
def payload_nonce (h : Header) : List Nat :=
  h.salt.take 8 ++ toBe32 h.blockcounter

/-- The header a writer session with the given salt carries at counter `c`
(version 0, variant 1, as set in `EncryptedWriter::new`; the magic field
is ignored by serialization). -/
def writerHeader (c : Nat) (salt : List Nat) : Header :=
  { magic := 0, version := 0, variant := 1, blockcounter := c, salt := salt }

/-- The header the reader parses back from an emitted block at counter
`c`: as the writer's, with the table magic byte in the magic field. -/
def parsedHeader (c : Nat) (salt : List Nat) : Header :=
  { magic := MAGIC.getD (c % 256) 0, version := 0, variant := 1,
    blockcounter := c, salt := salt }

/-- Model of the external argon2 crate's `hash_raw` with the fixed
ARGON2_PARAMS (hash_length 32): an executable deterministic stand-in
producing 32 bytes. Only determinism and the output length are relied on. -/
def argon2_hash_raw (pass salt : List Nat) : List Nat :=
  (List.range 32).map fun i =>
    (pass.foldl (fun a b => (a * 131 + b + 1) % 1000003) 7
      + salt.foldl (fun a b => (a * 137 + b + 1) % 1000003) 11 * 19
      + i * 101) % 256

/-- `generate_key` from mod.rs, effects made explicit: it derives a 32-byte
key from the passphrase and `header.salt ++ "#toc"`, and also returns the
stderr trace produced by its two `eprintln!` statements (which print the
derived key and the salt). -/
def generate_key_full (pass : List Nat) (h : Header) :
    List Nat × List (List Nat) :=
  let salt := h.salt ++ [35, 116, 111, 99]
  let key := argon2_hash_raw pass salt
  (key, [key, salt])

/-- The value returned by `generate_key` (mod.rs); the stderr trace of
`generate_key_full` is dropped. -/
def generate_key (pass : List Nat) (h : Header) : List Nat :=
  (generate_key_full pass h).1

/-- Model of the chacha20 keystream of the external chacha20poly1305 crate:
an executable deterministic stand-in, a function of key, nonce and position.
Only determinism is relied on. -/
def chacha20_keystream (key nonce : List Nat) (len : Nat) : List Nat :=
  (List.range len).map fun i =>
    (key.foldl (fun a b => (a * 193 + b + 1) % 1000033) 5
      + nonce.foldl (fun a b => (a * 197 + b + 1) % 1000033) 3 * 23
      + i * 13) % 256

/-- Model of the Poly1305 tag of the external chacha20poly1305 crate:
an executable deterministic stand-in over key, nonce and ciphertext. -/
def poly1305_tag (key nonce ct : List Nat) : List Nat :=
  (List.range 16).map fun i =>
    (ct.foldl (fun a b => (a * 31 + b + 1) % 1000037) 1
      + key.foldl (fun a b => (a * 29 + b + 1) % 1000037) 2 * 3
      + nonce.foldl (fun a b => (a * 41 + b + 1) % 1000037) 4 * 5
      + i * 97) % 256

/-- `encrypt_in_place_detached`: xor the payload with the keystream and
compute the detached tag over the resulting ciphertext. -/
def encrypt_detached (key nonce payload : List Nat) : List Nat × List Nat :=
  let ct := List.zipWith (fun a b => a ^^^ b) payload
    (chacha20_keystream key nonce payload.length)
  (ct, poly1305_tag key nonce ct)

/-- `decrypt_in_place_detached`: verify the tag, then xor the ciphertext
with the keystream; tag mismatch is the AEAD error (mapped to KeyError). -/
def decrypt_detached (key nonce ct tag : List Nat) : Option (List Nat) :=
  if poly1305_tag key nonce ct = tag then
    some (List.zipWith (fun a b => a ^^^ b) ct
      (chacha20_keystream key nonce ct.length))
  else none

/-- The error taxonomy `EncryptedFileError` from mod.rs, plus `panic`
(for the `unwrap` on a missing map entry in `get_state`), `unexpectedEof`
(std `read_exact` reaching end of stream at the `EncryptedReader` API level)
and `fuel` (an artifact of the fueled loop models; proved unreachable for
adequate fuel wherever it matters). -/
inductive Err where
  | ioErr
  | invalidHeader
  | invalidChunk
  | unsupportedVariant
  | invalidBlockCounter
  | keyError
  | panic
  | unexpectedEof
  | fuel
  deriving DecidableEq, Repr

/-! ## Writer (src/common/src/crypto/writer.rs) -/

/-- The `EncryptedWriter` state. `buf` holds the bytes of the current
payload in progress (`current_chunk_position = buf.length`; the source
keeps them in the prefix of its scratch block buffer and zero-fills the
rest at `write_chunk` time). `out` is the byte stream written to the inner
sink so far. -/
structure WriterState where
  key : List Nat
  salt : List Nat
  blockcounter : Nat
  buf : List Nat
  out : List Nat
  deriving DecidableEq, Repr

/-- The writer's `current_header`. -/
def WriterState.header (w : WriterState) : Header :=
  writerHeader w.blockcounter w.salt

/-- `EncryptedWriter::write_chunk`, with the inner sink's health made
explicit: zero-pad the payload, AEAD-encrypt it, emit
`header.toBytes ++ ciphertext ++ tag` to the sink, then increment the
counter with `checked_add` (error when it would pass u32::MAX).
A failing sink write is an error before the increment. -/
def write_chunk_sink (w : WriterState) (sinkOk : Bool) :
    Except Err WriterState :=
  let payload := w.buf ++ List.replicate (PAYLOAD_SIZE - w.buf.length) 0
  let nonce := payload_nonce w.header
  let et := encrypt_detached w.key nonce payload
  let block := w.header.toBytes ++ et.1 ++ et.2
  if sinkOk then
    if w.blockcounter = U32_MOD - 1 then .error .ioErr
    else .ok { w with out := w.out ++ block, blockcounter := w.blockcounter + 1 }
  else .error .ioErr

/-- `write_chunk` against an always-healthy sink (a `Vec<u8>`). -/
def write_chunk (w : WriterState) : Except Err WriterState :=
  write_chunk_sink w true

/-- One `Write::write` call of `EncryptedWriter`: copy
`min(PAYLOAD_SIZE - position, buf.len())` bytes into the chunk; when the
chunk fills, emit it and reset the position. Returns the byte count
accepted. -/
def writeStep (w : WriterState) (buf : List Nat) :
    Except Err (WriterState × Nat) :=
  let left := PAYLOAD_SIZE - w.buf.length
  let to_write := min left buf.length
  let w' := { w with buf := w.buf ++ buf.take to_write }
  if w'.buf.length = PAYLOAD_SIZE then
    match write_chunk w' with
    | .ok w'' => .ok ({ w'' with buf := [] }, to_write)
    | .error e => .error e
  else .ok (w', to_write)

/-- std's `write_all` loop over `EncryptedWriter::write`: repeat until the
input is exhausted; a `write` that accepts 0 bytes of a nonempty input is
the `WriteZero` error. -/
def write_all (w : WriterState) (buf : List Nat) : Except Err WriterState :=
  if hb : buf = [] then .ok w
  else
    match writeStep w buf with
    | .error e => .error e
    | .ok (w', n) =>
      if hn : n = 0 then .error .ioErr
      else write_all w' (buf.drop n)
termination_by buf.length
decreasing_by
  simp only [List.length_drop]
  have : 0 < buf.length := List.length_pos.mpr hb
  omega

/-- `EncryptedWriter::new` with the salt made a parameter (the source draws
it from a cryptographic RNG, an external collaborator): derive the key from
the passphrase and the fresh header, start with counter 0 and an empty
chunk. -/
def writerNew (pass salt : List Nat) : WriterState :=
  let header : Header :=
    { magic := 0, version := 0, variant := 1, blockcounter := 0, salt := salt }
  { key := generate_key pass header, salt := salt, blockcounter := 0,
    buf := [], out := [] }

/-- `impl Drop for EncryptedWriter` with the sink's health explicit:
when bytes are buffered, emit one final (zero-padded) block via
`write_chunk().unwrap()`; `none` is the destructor's panic on any
`write_chunk` error. -/
def writerDropSink (w : WriterState) (sinkOk : Bool) : Option WriterState :=
  if 0 < w.buf.length then
    match write_chunk_sink w sinkOk with
    | .ok w' => some w'
    | .error _ => none
  else some w

/-- `Drop` against an always-healthy sink, as an `Except` (the error case
is the destructor's panic; it cannot be reported to the caller). -/
def writerDrop (w : WriterState) : Except Err WriterState :=
  if 0 < w.buf.length then write_chunk w else .ok w

/-- The whole writer session of the module's tests: construct, `write_all`
the plaintext, drop; the result is the produced ciphertext byte stream. -/
def encrypt_all (pass salt B : List Nat) : Except Err (List Nat) := do
  let w := writerNew pass salt
  let w ← write_all w B
  let w ← writerDrop w
  .ok w.out

/-! ## Reader (src/common/src/crypto/reader.rs) -/

/-- Per-sub-stream reader state (`StreamState` in reader.rs): cached key,
the absolute plaintext-block index where the sub-stream started, and the
block index at which it was superseded by another sub-stream (`None` while
current). The i64 fields are modelled as `Int`. -/
structure StreamState where
  key : List Nat
  first_stream_chunk : Int
  next_stream_block : Option Int
  deriving DecidableEq, Repr

/-- The reader's inner byte source: a seekable cursor over a byte vector
(`Cursor<Vec<u8>>` / a slice in the module's tests). One `read` into the
544-byte scratch buffer yields `min (BLOCK_SIZE, remaining)` bytes. -/
structure InnerSource where
  data : List Nat
  ipos : Nat
  deriving DecidableEq, Repr

/-- The `EncryptedReader` state. `payload` is the decrypted payload region
of the scratch block buffer (all the `read` path ever copies out); the
sub-stream map is an association list keyed by the block salt.

The source declares the map key type as `[u8; 8]` while every use site
passes the whole 10-byte `header.salt`; the model uses the full salt as
the key, the only reading under which the use sites are well typed. -/
structure ReaderState where
  inner : InnerSource
  passphrase : List Nat
  stream_state : List (List Nat × StreamState)
  last_stream : Option (List Nat)
  current_chunk_position : Nat
  payload : List Nat
  global_position : Nat
  deriving DecidableEq, Repr

/-- `EncryptedReader::new`: no I/O; empty state map, chunk position parked
at PAYLOAD_SIZE so the first read fetches a block. -/
def readerNew (pass data : List Nat) : ReaderState :=
  { inner := { data := data, ipos := 0 }, passphrase := pass,
    stream_state := [], last_stream := none,
    current_chunk_position := PAYLOAD_SIZE,
    payload := List.replicate PAYLOAD_SIZE 0, global_position := 0 }

/-- Mark the sub-stream keyed by `sl` as superseded at block `nb`
(the `get_mut` update in `get_state`). -/
def updateNext (m : List (List Nat × StreamState)) (sl : List Nat)
    (nb : Int) : List (List Nat × StreamState) :=
  m.map fun e =>
    if e.1 = sl then (e.1, { e.2 with next_stream_block := some nb }) else e

/-- `EncryptedReader::get_state`: compute the current global block index,
retire the previous sub-stream when the salt changed (a missing map entry
there is the source's `unwrap` panic), then either validate this block
against the cached sub-stream state or derive and cache a fresh one.
`global_position` is a u64 and PAYLOAD_SIZE positive, so the source's i64
division is the Nat division cast to `Int`. -/
def get_state (r : ReaderState) (h : Header) :
    Except Err (ReaderState × StreamState) :=
  let current_block : Int := ((r.global_position / PAYLOAD_SIZE : Nat) : Int)
  let step : Except Err ReaderState :=
    match r.last_stream with
    | some sl =>
      if sl ≠ h.salt then
        match r.stream_state.lookup sl with
        | none => .error .panic
        | some _ =>
          .ok { r with stream_state := updateNext r.stream_state sl current_block }
      else .ok r
    | none => .ok r
  match step with
  | .error e => .error e
  | .ok r =>
    let r := { r with last_stream := some h.salt }
    match r.stream_state.lookup h.salt with
    | some st =>
      if (match st.next_stream_block with
          | some nb => decide (nb ≤ current_block)
          | none => false) then
        .error .invalidBlockCounter
      else if current_block = st.first_stream_chunk + (h.blockcounter : Int) then
        .ok (r, st)
      else .error .invalidBlockCounter
    | none =>
      let key := generate_key r.passphrase h
      let start := current_block - (h.blockcounter : Int)
      if start < 0 then .error .invalidBlockCounter
      else
        let st : StreamState :=
          { key := key, first_stream_chunk := start, next_stream_block := none }
        .ok ({ r with stream_state := (h.salt, st) :: r.stream_state }, st)

/-- The block-decoding tail of `EncryptedReader::read_chunk`, applied once
the 544 block bytes have been obtained: parse the header, check its static
fields, resolve the sub-stream state, AEAD-verify-and-decrypt the payload,
and reset the chunk cursor.

The magic guard in the source is the line `header.magic != *MAGIC`, which
compares the one magic byte with the entire 256-byte table; that comparison
is ill typed (u8 against [u8; 256]) and under any reading rejects every
block, contradicting the module's own round-trip tests. The evident intent
- `Header::magic_ok`, defined in mod.rs and exactly matching the spec and
the table's own description - is used here; claim C6 records the
divergence. -/
def decode_block (r : ReaderState) (block : List Nat) :
    Except Err ReaderState :=
  let h := Header.ofBytes (block.take HEADER_SIZE)
  if ¬ h.magic_ok then .error .invalidHeader
  else if h.version ≠ 0 ∨ h.variant ≠ 1 then .error .unsupportedVariant
  else
    match get_state r h with
    | .error e => .error e
    | .ok (r, st) =>
      let nonce := payload_nonce h
      let ct := (block.drop HEADER_SIZE).take PAYLOAD_SIZE
      let tag := block.drop (HEADER_SIZE + PAYLOAD_SIZE)
      match decrypt_detached st.key nonce ct tag with
      | none => .error .keyError
      | some p =>
        .ok { r with payload := p, current_chunk_position := 0 }

/-- The block-decode step with the magic guard exactly as the source
writes it: `header.magic != *MAGIC` compares the single magic byte
against the entire 256-byte table, so as a value comparison the guard
asks whether the byte (as the one-byte datum it is) equals the table. -/
def decode_block_literal_guard (r : ReaderState) (block : List Nat) :
    Except Err ReaderState :=
  let h := Header.ofBytes (block.take HEADER_SIZE)
  if [h.magic] ≠ MAGIC then .error .invalidHeader
  else if h.version ≠ 0 ∨ h.variant ≠ 1 then .error .unsupportedVariant
  else
    match get_state r h with
    | .error e => .error e
    | .ok (r, st) =>
      let nonce := payload_nonce h
      let ct := (block.drop HEADER_SIZE).take PAYLOAD_SIZE
      let tag := block.drop (HEADER_SIZE + PAYLOAD_SIZE)
      match decrypt_detached st.key nonce ct tag with
      | none => .error .keyError
      | some p =>
        .ok { r with payload := p, current_chunk_position := 0 }

/-- `EncryptedReader::read_chunk` over the cursor source: park the chunk
cursor, then read the next block. A first read of 0 bytes is end of
stream (`Ok(false)`); of BLOCK_SIZE bytes, a whole block; of anything in
between (the cursor's last, short tail) the follow-up `read_exact` hits
end of stream, which `From<std::io::Error>` maps to `InvalidChunk`. -/
def read_chunk (r : ReaderState) : Except Err (Bool × ReaderState) :=
  let r := { r with current_chunk_position := PAYLOAD_SIZE }
  let rem := r.inner.data.drop r.inner.ipos
  if rem.length = 0 then .ok (false, r)
  else if rem.length < BLOCK_SIZE then .error .invalidChunk
  else
    let block := rem.take BLOCK_SIZE
    let r := { r with inner := { r.inner with ipos := r.inner.ipos + BLOCK_SIZE } }
    match decode_block r block with
    | .error e => .error e
    | .ok r' => .ok (true, r')

/-- The copy-out step of `Read::read`: take
`min (buflen, PAYLOAD_SIZE - position)` bytes from the current decrypted
payload and advance the cursors. -/
def readCore (r : ReaderState) (buflen : Nat) : ReaderState × List Nat :=
  let to_read := min buflen (PAYLOAD_SIZE - r.current_chunk_position)
  let bytes := (r.payload.drop r.current_chunk_position).take to_read
  ({ r with current_chunk_position := r.current_chunk_position + to_read,
            global_position := r.global_position + to_read }, bytes)

/-- `Read::read` for `EncryptedReader`: fetch and decode the next block
when the current one is exhausted (returning `Ok(0)` at end of stream),
then copy out of the current payload. The returned list stands for the
bytes placed in the caller's buffer of capacity `buflen`. -/
def read (r : ReaderState) (buflen : Nat) :
    Except Err (ReaderState × List Nat) :=
  if r.current_chunk_position = PAYLOAD_SIZE then
    match read_chunk r with
    | .error e => .error e
    | .ok (false, r') => .ok (r', [])
    | .ok (true, r') => .ok (readCore r' buflen)
  else .ok (readCore r buflen)

/-- std's `read_to_end` loop: call `read` until it returns 0 bytes. Each
call is made with capacity PAYLOAD_SIZE; a `read` hands out at most the
remainder of the current block, so the accumulated byte sequence does not
depend on the capacity. Fueled; `data.length + 2` fuel always suffices. -/
def read_to_end (fuel : Nat) (r : ReaderState) (acc : List Nat) :
    Except Err (List Nat) :=
  match fuel with
  | 0 => .error .fuel
  | fuel + 1 =>
    match read r PAYLOAD_SIZE with
    | .error e => .error e
    | .ok (r', bytes) =>
      if bytes = [] then .ok acc else read_to_end fuel r' (acc ++ bytes)

/-- The whole reading session of the module's tests: construct a reader
over the ciphertext and `read_to_end`. -/
def decrypt_all (pass data : List Nat) : Except Err (List Nat) :=
  read_to_end (data.length + 2) (readerNew pass data) []

/-- `Seek::seek` with `SeekFrom::Start(n)`: position the source at the
containing block, clear the last-salt marker, rebase `global_position`,
decode one block and advance the intra-block cursor - unless the source is
already at end of stream, in which case the cursor stays parked. -/
def seekStart (r : ReaderState) (n : Nat) : Except Err (ReaderState × Nat) :=
  let block := n / PAYLOAD_SIZE
  let offset := n % PAYLOAD_SIZE
  let r := { r with inner := { r.inner with ipos := block * BLOCK_SIZE },
                    last_stream := none,
                    global_position := block * PAYLOAD_SIZE }
  match read_chunk r with
  | .error e => .error e
  | .ok (false, r') => .ok (r', n)
  | .ok (true, r') =>
    .ok ({ r' with current_chunk_position := offset,
                   global_position := r'.global_position + offset }, n)

/-- std's `read_exact` loop over `EncryptedReader::read`: keep reading
until `len` bytes have been collected; a `read` of 0 bytes first is
`UnexpectedEof`. Fueled; `len + 1` fuel always suffices. -/
def read_exact (fuel : Nat) (r : ReaderState) (len : Nat) (acc : List Nat) :
    Except Err (ReaderState × List Nat) :=
  match fuel with
  | 0 => .error .fuel
  | fuel + 1 =>
    if len = 0 then .ok (r, acc)
    else
      match read r len with
      | .error e => .error e
      | .ok (r', bytes) =>
        if bytes = [] then .error .unexpectedEof
        else read_exact fuel r' (len - bytes.length) (acc ++ bytes)

/-- The seek scenario of claim C5: fresh reader over the ciphertext, seek
to the absolute plaintext offset, then `read_exact` a buffer of `len`
bytes; the result is that buffer's content. -/
def seek_read (pass data : List Nat) (off len : Nat) :
    Except Err (List Nat) :=
  match seekStart (readerNew pass data) off with
  | .error e => .error e
  | .ok (r, _) =>
    match read_exact (len + 1) r len [] with
    | .error e => .error e
    | .ok (_, bytes) => .ok bytes

/-! ## Segmented source (the generic `R : Read` of `read_chunk`, for C7) -/

/-- A byte source with prescribed read granularity: each `read` call
yields up to the next segment (capped at the requested capacity), the way
an arbitrary `R: Read` may return short reads. -/
def segRead (src : List (List Nat)) (cap : Nat) :
    List Nat × List (List Nat) :=
  match src with
  | [] => ([], [])
  | seg :: rest =>
    if seg.length ≤ cap then (seg, rest)
    else (seg.take cap, seg.drop cap :: rest)

/-- std's `read_exact` filling loop on the segmented source: collect
`need` more bytes; a 0-byte read is `UnexpectedEof`, which
`From<std::io::Error>` maps to `InvalidChunk`. Fueled. -/
def segFill (fuel : Nat) (src : List (List Nat)) (need : Nat)
    (acc : List Nat) : Except Err (List Nat × List (List Nat)) :=
  match fuel with
  | 0 => .error .fuel
  | fuel + 1 =>
    if need = 0 then .ok (acc, src)
    else
      match segRead src need with
      | ([], _) => .error .invalidChunk
      | (got, src') => segFill fuel src' (need - got.length) (acc ++ got)

/-- `EncryptedReader::read_chunk` over a generic source of arbitrary read
granularity: a first read of 0 bytes is end of stream; of BLOCK_SIZE
bytes, a whole block; any other count `n` makes the reader complete the
block with `read_exact(&mut chunk[n..])` before decoding. -/
def read_chunk_seg (r : ReaderState) (src : List (List Nat)) :
    Except Err (Bool × ReaderState × List (List Nat)) :=
  let r := { r with current_chunk_position := PAYLOAD_SIZE }
  match segRead src BLOCK_SIZE with
  | ([], _) => .ok (false, r, [])
  | (first, src') =>
    if first.length = BLOCK_SIZE then
      match decode_block r first with
      | .error e => .error e
      | .ok r' => .ok (true, r', src')
    else
      match segFill (BLOCK_SIZE + 1) src' (BLOCK_SIZE - first.length) first with
      | .error e => .error e
      | .ok (block, src'') =>
        match decode_block r block with
        | .error e => .error e
        | .ok r' => .ok (true, r', src'')

/-! ## Block-level shapes of the produced ciphertext -/

/-- The key that `generate_key` derives for a given salt (it depends on
the header only through the salt). -/
def genKey (pass salt : List Nat) : List Nat :=
  argon2_hash_raw pass (salt ++ [35, 116, 111, 99])

/-- One emitted block: serialized header, then the AEAD ciphertext of the
512-byte payload, then the 16-byte tag. -/
def mkBlock (key salt : List Nat) (c : Nat) (payload : List Nat) : List Nat :=
  let h := writerHeader c salt
  let et := encrypt_detached key (payload_nonce h) payload
  h.toBytes ++ et.1 ++ et.2

/-- The blocks of one sub-stream: counters `c0, c0+1, ...` over the given
payloads. -/
def blockSeq (key salt : List Nat) (c0 : Nat) (ps : List (List Nat)) :
    List (List Nat) :=
  match ps with
  | [] => []
  | p :: rest => mkBlock key salt c0 p :: blockSeq key salt (c0 + 1) rest

/-- The plaintext split into PAYLOAD_SIZE chunks, the last chunk
zero-padded to PAYLOAD_SIZE; an empty plaintext yields no chunk. -/
def padChunks (B : List Nat) : List (List Nat) :=
  if B = [] then []
  else if B.length ≤ PAYLOAD_SIZE then
    [B ++ List.replicate (PAYLOAD_SIZE - B.length) 0]
  else B.take PAYLOAD_SIZE :: padChunks (B.drop PAYLOAD_SIZE)
termination_by B.length
decreasing_by
  simp only [List.length_drop, PAYLOAD_SIZE] at *
  simp only [not_le] at *
  omega

lemma generate_key_eq_genKey (pass : List Nat) (h : Header) :
    generate_key pass h = genKey pass h.salt := rfl

lemma chacha20_keystream_length (key nonce : List Nat) (len : Nat) :
    (chacha20_keystream key nonce len).length = len := by
  simp [chacha20_keystream]

lemma encrypt_detached_fst_length (key nonce p : List Nat) :
    (encrypt_detached key nonce p).1.length = p.length := by
  simp [encrypt_detached, chacha20_keystream_length]

lemma encrypt_detached_snd_length (key nonce p : List Nat) :
    (encrypt_detached key nonce p).2.length = 16 := by
  simp [encrypt_detached, poly1305_tag]

lemma toBe32_length (n : Nat) : (toBe32 n).length = 4 := rfl

lemma Header.toBytes_length (h : Header) (hs : h.salt.length = 10) :
    h.toBytes.length = HEADER_SIZE := by
  simp [Header.toBytes, toBe32, hs, HEADER_SIZE]

lemma mkBlock_length (key salt : List Nat) (c : Nat) (p : List Nat)
    (hs : salt.length = 10) (hp : p.length = PAYLOAD_SIZE) :
    (mkBlock key salt c p).length = BLOCK_SIZE := by
  simp [mkBlock, writerHeader, Header.toBytes, toBe32,
    encrypt_detached_fst_length, encrypt_detached_snd_length, hs, hp,
    BLOCK_SIZE, HEADER_SIZE, PAYLOAD_SIZE, POLY_TAG_SIZE]

lemma fromBe32_toBe32 (n : Nat) (hn : n < U32_MOD) :
    fromBe32 (toBe32 n) = n := by
  simp only [U32_MOD] at hn
  simp [fromBe32, toBe32, List.foldl]
  omega

lemma xor_cancel_right (a b : Nat) : (a ^^^ b) ^^^ b = a := by
  rw [Nat.xor_assoc, Nat.xor_self, Nat.xor_zero]

lemma xor_lt_u32 (a b : Nat) (ha : a < U32_MOD) (hb : b < U32_MOD) :
    a ^^^ b < U32_MOD := by
  have h32 : U32_MOD = 2 ^ 32 := by norm_num [U32_MOD]
  rw [h32] at ha hb ⊢
  exact Nat.xor_lt_two_pow ha hb

lemma counter_hint_lt : COUNTER_HINT < U32_MOD := by norm_num [COUNTER_HINT, U32_MOD]

/-- The header region of an emitted block is exactly the serialized
header. -/
lemma mkBlock_take_header (key salt : List Nat) (c : Nat) (p : List Nat)
    (hs : salt.length = 10) :
    (mkBlock key salt c p).take HEADER_SIZE =
      (writerHeader c salt).toBytes := by
  rw [mkBlock]
  rw [List.append_assoc]
  exact List.take_left' (Header.toBytes_length _ hs)

/-- Parsing the header of an emitted block recovers the writer's header
fields (with the emitted magic byte). -/
lemma ofBytes_mkBlock (key salt : List Nat) (c : Nat) (p : List Nat)
    (hs : salt.length = 10) (hc : c < U32_MOD) :
    Header.ofBytes ((mkBlock key salt c p).take HEADER_SIZE) =
      parsedHeader c salt := by
  have hxlt : c ^^^ COUNTER_HINT < U32_MOD := xor_lt_u32 _ _ hc counter_hint_lt
  rw [mkBlock_take_header key salt c p hs]
  simp only [writerHeader, parsedHeader, Header.toBytes, toBe32]
  simp only [Header.ofBytes, List.cons_append, List.nil_append]
  simp only [List.getD, List.drop, List.take]
  have hbe : fromBe32 [(c ^^^ COUNTER_HINT) / 16777216 % 256,
      (c ^^^ COUNTER_HINT) / 65536 % 256, (c ^^^ COUNTER_HINT) / 256 % 256,
      (c ^^^ COUNTER_HINT) % 256] = c ^^^ COUNTER_HINT :=
    fromBe32_toBe32 _ hxlt
  simp [hbe, xor_cancel_right, List.take_of_length_le, hs]

/-! ## Writer closed form -/

/-- The writer state after emitting one full chunk: the block is appended
to the sink, the counter advances, the payload buffer is reset. -/
def afterChunk (w : WriterState) (chunk : List Nat) : WriterState :=
  { key := w.key, salt := w.salt, blockcounter := w.blockcounter + 1,
    buf := [], out := w.out ++ mkBlock w.key w.salt w.blockcounter chunk }

lemma write_chunk_ok (w : WriterState) (h : w.blockcounter ≠ U32_MOD - 1) :
    write_chunk w = .ok { w with
      out := w.out ++ mkBlock w.key w.salt w.blockcounter
        (w.buf ++ List.replicate (PAYLOAD_SIZE - w.buf.length) 0),
      blockcounter := w.blockcounter + 1 } := by
  simp [write_chunk, write_chunk_sink, h, mkBlock, WriterState.header]

lemma write_chunk_err (w : WriterState) (h : w.blockcounter = U32_MOD - 1) :
    write_chunk w = .error .ioErr := by
  simp [write_chunk, write_chunk_sink, h]

lemma padChunks_nil : padChunks [] = [] := by
  rw [padChunks]
  simp

lemma padChunks_small (B : List Nat) (h0 : B ≠ [])
    (h1 : B.length ≤ PAYLOAD_SIZE) :
    padChunks B = [B ++ List.replicate (PAYLOAD_SIZE - B.length) 0] := by
  rw [padChunks]
  simp [h0, h1]

lemma padChunks_cons (B : List Nat) (h1 : PAYLOAD_SIZE ≤ B.length) :
    padChunks B = B.take PAYLOAD_SIZE :: padChunks (B.drop PAYLOAD_SIZE) := by
  have h0 : B ≠ [] := by
    intro h
    rw [h] at h1
    simp [PAYLOAD_SIZE] at h1
  rcases Nat.lt_or_ge PAYLOAD_SIZE B.length with hlt | hge
  · rw [padChunks, if_neg h0, if_neg (by omega)]
  · have heq : B.length = PAYLOAD_SIZE := le_antisymm hge h1
    rw [padChunks, if_neg h0, if_pos (le_of_eq heq)]
    rw [List.take_of_length_le (le_of_eq heq),
      List.drop_of_length_le (le_of_eq heq), padChunks_nil, heq]
    simp

lemma blockSeq_nil (key salt : List Nat) (c0 : Nat) :
    blockSeq key salt c0 [] = [] := rfl

lemma blockSeq_cons (key salt : List Nat) (c0 : Nat) (p : List Nat)
    (ps : List (List Nat)) :
    blockSeq key salt c0 (p :: ps) =
      mkBlock key salt c0 p :: blockSeq key salt (c0 + 1) ps := rfl

lemma writeStep_small (w : WriterState) (B : List Nat) (hbuf : w.buf = [])
    (h0 : B ≠ []) (hs : B.length < PAYLOAD_SIZE) :
    writeStep w B = .ok ({ w with buf := B }, B.length) := by
  rw [writeStep]
  simp only [hbuf, List.nil_append, List.length_nil, Nat.sub_zero]
  rw [min_eq_right (le_of_lt hs), List.take_length]
  rw [if_neg (by simpa using Nat.ne_of_lt hs)]

lemma writeStep_full (w : WriterState) (B : List Nat) (hbuf : w.buf = [])
    (hbig : PAYLOAD_SIZE ≤ B.length) (hc : w.blockcounter ≠ U32_MOD - 1) :
    writeStep w B = .ok (afterChunk w (B.take PAYLOAD_SIZE), PAYLOAD_SIZE) := by
  rw [writeStep]
  simp only [hbuf, List.nil_append, List.length_nil, Nat.sub_zero]
  rw [min_eq_left hbig]
  rw [if_pos (List.length_take_of_le hbig)]
  rw [write_chunk_ok ⟨w.key, w.salt, w.blockcounter, List.take PAYLOAD_SIZE B, w.out⟩ hc]
  simp [afterChunk, List.length_take_of_le hbig]

lemma writeStep_full_err (w : WriterState) (B : List Nat) (hbuf : w.buf = [])
    (hbig : PAYLOAD_SIZE ≤ B.length) (hc : w.blockcounter = U32_MOD - 1) :
    writeStep w B = .error .ioErr := by
  rw [writeStep]
  simp only [hbuf, List.nil_append, List.length_nil, Nat.sub_zero]
  rw [min_eq_left hbig]
  rw [if_pos (List.length_take_of_le hbig)]
  rw [write_chunk_err ⟨w.key, w.salt, w.blockcounter, List.take PAYLOAD_SIZE B, w.out⟩ hc]

lemma write_all_nil (w : WriterState) : write_all w [] = .ok w := by
  rw [write_all]
  simp

lemma write_all_small (w : WriterState) (B : List Nat) (hbuf : w.buf = [])
    (h0 : B ≠ []) (hs : B.length < PAYLOAD_SIZE) :
    write_all w B = .ok { w with buf := B } := by
  rw [write_all, dif_neg h0, writeStep_small w B hbuf h0 hs]
  have hn : B.length ≠ 0 := by simpa using h0
  simp only [hn, dite_false, dite_eq_ite, if_neg hn]
  simp only [if_false]
  rw [List.drop_length, write_all_nil]

lemma write_all_step (w : WriterState) (B : List Nat) (hbuf : w.buf = [])
    (hbig : PAYLOAD_SIZE ≤ B.length) (hc : w.blockcounter ≠ U32_MOD - 1) :
    write_all w B =
      write_all (afterChunk w (B.take PAYLOAD_SIZE)) (B.drop PAYLOAD_SIZE) := by
  have h0 : B ≠ [] := by
    intro h
    rw [h] at hbig
    simp [PAYLOAD_SIZE] at hbig
  rw [write_all, dif_neg h0, writeStep_full w B hbuf hbig hc]
  have hn : PAYLOAD_SIZE ≠ 0 := by simp [PAYLOAD_SIZE]
  simp only [hn, dite_eq_ite, if_neg hn]
  simp only [if_false]

lemma write_all_step_err (w : WriterState) (B : List Nat) (hbuf : w.buf = [])
    (hbig : PAYLOAD_SIZE ≤ B.length) (hc : w.blockcounter = U32_MOD - 1) :
    write_all w B = .error .ioErr := by
  have h0 : B ≠ [] := by
    intro h
    rw [h] at hbig
    simp [PAYLOAD_SIZE] at hbig
  rw [write_all, dif_neg h0, writeStep_full_err w B hbuf hbig hc]

/-- The ciphertext produced by `write_all` followed by the drop: one block
per padded chunk, counters continuing from the writer's current counter;
holds whenever all counters stay within u32. -/
lemma write_drop_spec (fuel : Nat) : ∀ B : List Nat, B.length ≤ fuel →
    ∀ w : WriterState, w.buf = [] →
    w.blockcounter + (padChunks B).length ≤ U32_MOD - 1 →
    ∃ w', (write_all w B >>= writerDrop) = .ok w' ∧
      w'.out = w.out ++
        (blockSeq w.key w.salt w.blockcounter (padChunks B)).flatten := by
  induction fuel with
  | zero =>
    intro B hB w hbuf _
    have h0 : B = [] := List.eq_nil_of_length_eq_zero (Nat.le_zero.mp hB)
    subst h0
    refine ⟨w, ?_, by simp [padChunks_nil, blockSeq_nil]⟩
    rw [write_all_nil]
    simp [Bind.bind, Except.bind, writerDrop, hbuf]
  | succ fuel ih =>
    intro B hB w hbuf hcnt
    by_cases h0 : B = []
    · subst h0
      refine ⟨w, ?_, by simp [padChunks_nil, blockSeq_nil]⟩
      rw [write_all_nil]
      simp [Bind.bind, Except.bind, writerDrop, hbuf]
    · rcases Nat.lt_or_ge B.length PAYLOAD_SIZE with hsmall | hbig
      · have hpc := padChunks_small B h0 (le_of_lt hsmall)
        rw [hpc] at hcnt
        simp at hcnt
        have hcne : w.blockcounter ≠ U32_MOD - 1 := by omega
        rw [write_all_small w B hbuf h0 hsmall]
        simp only [Bind.bind, Except.bind]
        rw [writerDrop, if_pos (by simp [List.length_pos, h0])]
        rw [write_chunk_ok ⟨w.key, w.salt, w.blockcounter, B, w.out⟩ hcne]
        refine ⟨_, rfl, ?_⟩
        simp [hpc, blockSeq_cons, blockSeq_nil]
      · have hpc := padChunks_cons B hbig
        rw [hpc] at hcnt
        simp at hcnt
        have hcne : w.blockcounter ≠ U32_MOD - 1 := by omega
        rw [write_all_step w B hbuf hbig hcne]
        have hlen : (B.drop PAYLOAD_SIZE).length ≤ fuel := by
          simp only [List.length_drop, PAYLOAD_SIZE] at *
          omega
        have hrec := ih (B.drop PAYLOAD_SIZE) hlen
          (afterChunk w (B.take PAYLOAD_SIZE)) rfl
          (by simp [afterChunk]; omega)
        rcases hrec with ⟨w', hw', hout⟩
        refine ⟨w', hw', ?_⟩
        rw [hout]
        simp [afterChunk, hpc, blockSeq_cons]

/-- Failure form: when the counters would pass u32::MAX, the session
errors (in `write` via `checked_add`, or panics in the destructor). -/
lemma write_drop_err (fuel : Nat) : ∀ B : List Nat, B.length ≤ fuel →
    ∀ w : WriterState, w.buf = [] →
    w.blockcounter ≤ U32_MOD - 1 →
    U32_MOD - 1 < w.blockcounter + (padChunks B).length →
    (write_all w B >>= writerDrop) = .error .ioErr := by
  induction fuel with
  | zero =>
    intro B hB w hbuf hle hgt
    have h0 : B = [] := List.eq_nil_of_length_eq_zero (Nat.le_zero.mp hB)
    subst h0
    rw [padChunks_nil] at hgt
    simp at hgt
    omega
  | succ fuel ih =>
    intro B hB w hbuf hle hgt
    by_cases h0 : B = []
    · subst h0
      rw [padChunks_nil] at hgt
      simp at hgt
      omega
    · rcases Nat.lt_or_ge B.length PAYLOAD_SIZE with hsmall | hbig
      · have hpc := padChunks_small B h0 (le_of_lt hsmall)
        rw [hpc] at hgt
        simp at hgt
        have hceq : w.blockcounter = U32_MOD - 1 := by omega
        rw [write_all_small w B hbuf h0 hsmall]
        simp only [Bind.bind, Except.bind]
        rw [writerDrop, if_pos (by simp [List.length_pos, h0])]
        rw [write_chunk_err ⟨w.key, w.salt, w.blockcounter, B, w.out⟩ hceq]
      · by_cases hceq : w.blockcounter = U32_MOD - 1
        · rw [write_all_step_err w B hbuf hbig hceq]
          rfl
        · rw [write_all_step w B hbuf hbig hceq]
          have hpc := padChunks_cons B hbig
          rw [hpc] at hgt
          simp at hgt
          exact ih (B.drop PAYLOAD_SIZE)
            (by simp only [List.length_drop, PAYLOAD_SIZE] at *; omega)
            (afterChunk w (B.take PAYLOAD_SIZE)) rfl
            (by simp [afterChunk]; omega)
            (by simp [afterChunk]; omega)

lemma except_bind_out (x : Except Err WriterState) (w' : WriterState)
    (h : x.bind writerDrop = .ok w') :
    (x.bind fun w => (writerDrop w).bind fun w => Except.ok w.out) =
      .ok w'.out := by
  cases x with
  | error e => simp [Except.bind] at h
  | ok wa =>
    simp only [Except.bind] at h ⊢
    rw [h]

lemma except_bind_out_err (x : Except Err WriterState) (e : Err)
    (h : x.bind writerDrop = .error e) :
    (x.bind fun w => (writerDrop w).bind fun w => Except.ok w.out) =
      .error e := by
  cases x with
  | error e' => simpa [Except.bind] using h
  | ok wa =>
    simp only [Except.bind] at h ⊢
    rw [h]

/-- `encrypt_all` closed form: the ciphertext is the block sequence over
the padded chunks, keyed by the salt-derived key, counters from 0. -/
lemma encrypt_all_spec (pass salt B : List Nat)
    (h : (padChunks B).length ≤ U32_MOD - 1) :
    encrypt_all pass salt B =
      .ok ((blockSeq (genKey pass salt) salt 0 (padChunks B)).flatten) := by
  have hw := write_drop_spec B.length B (le_refl _) (writerNew pass salt) rfl
    (by simpa [writerNew] using h)
  rcases hw with ⟨w', hw', hout⟩
  simp only [Bind.bind] at hw'
  rw [encrypt_all]
  simp only [Bind.bind]
  rw [except_bind_out _ w' hw', hout]
  simp [writerNew, generate_key_eq_genKey]

/-- `encrypt_all` failure form: one chunk too many for the u32 counter. -/
lemma encrypt_all_err (pass salt B : List Nat)
    (h : U32_MOD - 1 < (padChunks B).length) :
    encrypt_all pass salt B = .error .ioErr := by
  have hw := write_drop_err B.length B (le_refl _) (writerNew pass salt) rfl
    (by simp [writerNew, U32_MOD]) (by simpa [writerNew] using h)
  simp only [Bind.bind] at hw
  rw [encrypt_all]
  simp only [Bind.bind]
  rw [except_bind_out_err _ _ hw]

/-! ## Reader step lemmas -/

/-- Explicit constructor for reader states (every `ReaderState` is of this
shape), keeping statements about state transitions readable. -/
def mkReader (data : List Nat) (ipos : Nat) (pass : List Nat)
    (m : List (List Nat × StreamState)) (last : Option (List Nat))
    (pos : Nat) (pl : List Nat) (g : Nat) : ReaderState :=
  { inner := { data := data, ipos := ipos }, passphrase := pass,
    stream_state := m, last_stream := last, current_chunk_position := pos,
    payload := pl, global_position := g }

/-- Sub-stream state record, explicit constructor form. -/
def mkStream (k : List Nat) (first : Int) (next : Option Int) : StreamState :=
  { key := k, first_stream_chunk := first, next_stream_block := next }

lemma lookup_cons_streams (a : List Nat) (e : List Nat × StreamState)
    (m : List (List Nat × StreamState)) :
    (e :: m).lookup a = if a = e.1 then some e.2 else m.lookup a := by
  obtain ⟨k, v⟩ := e
  simp only [List.lookup]
  by_cases h : a = k
  · subst h
    rw [beq_self_eq_true]
    simp
  · rw [beq_false_of_ne h]
    simp [h]

lemma lookup_pair_eq (a : List Nat) (st : StreamState)
    (m : List (List Nat × StreamState)) :
    ((a, st) :: m).lookup a = some st := by
  rw [lookup_cons_streams]
  simp

lemma lookup_pair_ne (a b : List Nat) (st : StreamState)
    (m : List (List Nat × StreamState)) (h : a ≠ b) :
    ((b, st) :: m).lookup a = m.lookup a := by
  have hb : ((b, st) : List Nat × StreamState).1 = b := rfl
  rw [lookup_cons_streams, hb, if_neg h]

lemma updateNext_cons (e : List Nat × StreamState)
    (m : List (List Nat × StreamState)) (sl : List Nat) (nb : Int) :
    updateNext (e :: m) sl nb =
      (if e.1 = sl then (e.1, { e.2 with next_stream_block := some nb })
        else e) :: updateNext m sl nb := rfl

lemma lookup_updateNext_ne (m : List (List Nat × StreamState))
    (s sl : List Nat) (nb : Int) (h : s ≠ sl) :
    (updateNext m sl nb).lookup s = m.lookup s := by
  induction m with
  | nil => rfl
  | cons e m ih =>
    rw [updateNext_cons, lookup_cons_streams, lookup_cons_streams]
    have h1 : (if e.1 = sl then
        (e.1, { e.2 with next_stream_block := some nb }) else e).1 = e.1 := by
      by_cases hc : e.1 = sl <;> simp [hc]
    rw [h1]
    by_cases hse : s = e.1
    · have hesl : e.1 ≠ sl := fun hc => h (hse ▸ hc)
      rw [if_neg hesl, if_pos hse, if_pos hse]
    · rw [if_neg hse, if_neg hse, ih]

lemma lookup_updateNext_self (m : List (List Nat × StreamState))
    (sl : List Nat) (nb : Int) (st : StreamState)
    (h : m.lookup sl = some st) :
    (updateNext m sl nb).lookup sl =
      some { st with next_stream_block := some nb } := by
  induction m with
  | nil => simp [List.lookup] at h
  | cons e m ih =>
    rw [lookup_cons_streams] at h
    rw [updateNext_cons, lookup_cons_streams]
    have h1 : (if e.1 = sl then
        (e.1, { e.2 with next_stream_block := some nb }) else e).1 = e.1 := by
      by_cases hc : e.1 = sl <;> simp [hc]
    rw [h1]
    by_cases hse : sl = e.1
    · rw [if_pos hse] at h
      rw [if_pos hse, if_pos hse.symm]
      simp only [Option.some.injEq] at h
      rw [h]
    · rw [if_neg hse] at h
      rw [if_neg hse]
      exact ih h

lemma mkBlock_take_block (key s : List Nat) (c : Nat) (p rest : List Nat)
    (hs : s.length = 10) (hp : p.length = PAYLOAD_SIZE) :
    (mkBlock key s c p ++ rest).take BLOCK_SIZE = mkBlock key s c p :=
  List.take_left' (mkBlock_length key s c p hs hp)

lemma mkBlock_drop_block (key s : List Nat) (c : Nat) (p rest : List Nat)
    (hs : s.length = 10) (hp : p.length = PAYLOAD_SIZE) :
    (mkBlock key s c p ++ rest).drop BLOCK_SIZE = rest :=
  List.drop_left' (mkBlock_length key s c p hs hp)

lemma mkBlock_ct (key s : List Nat) (c : Nat) (p : List Nat)
    (hs : s.length = 10) (hp : p.length = PAYLOAD_SIZE) :
    ((mkBlock key s c p).drop HEADER_SIZE).take PAYLOAD_SIZE =
      (encrypt_detached key (payload_nonce (writerHeader c s)) p).1 := by
  rw [mkBlock]
  rw [List.append_assoc, List.drop_left' (Header.toBytes_length _ hs)]
  rw [List.take_left']
  rw [encrypt_detached_fst_length, hp]

lemma mkBlock_tag (key s : List Nat) (c : Nat) (p : List Nat)
    (hs : s.length = 10) (hp : p.length = PAYLOAD_SIZE) :
    (mkBlock key s c p).drop (HEADER_SIZE + PAYLOAD_SIZE) =
      (encrypt_detached key (payload_nonce (writerHeader c s)) p).2 := by
  rw [mkBlock]
  exact List.drop_left' (by
    rw [List.length_append, Header.toBytes_length _ hs,
      encrypt_detached_fst_length, hp])

lemma zipWith_xor_invol (a k : List Nat) (h : a.length = k.length) :
    List.zipWith (fun x y => x ^^^ y)
      (List.zipWith (fun x y => x ^^^ y) a k) k = a := by
  induction a generalizing k with
  | nil => simp
  | cons x xs ih =>
    cases k with
    | nil => simp at h
    | cons y ys =>
      simp only [List.zipWith]
      rw [xor_cancel_right, ih ys (by simpa using h)]

lemma decrypt_encrypt (k nonce p : List Nat) :
    decrypt_detached k nonce (encrypt_detached k nonce p).1
      (encrypt_detached k nonce p).2 = some p := by
  rw [decrypt_detached, encrypt_detached]
  simp only [eq_self_iff_true, if_true]
  congr 1
  rw [List.length_zipWith, chacha20_keystream_length, min_self]
  exact zipWith_xor_invol p _ (by rw [chacha20_keystream_length])

lemma magic_ok_parsed (c : Nat) (s : List Nat) :
    (parsedHeader c s).magic_ok = true := by
  simp [Header.magic_ok, parsedHeader]

lemma nonce_parsed_eq (c : Nat) (s : List Nat) :
    payload_nonce (parsedHeader c s) = payload_nonce (writerHeader c s) := rfl

lemma div_payload (g : Nat) : PAYLOAD_SIZE * g / PAYLOAD_SIZE = g :=
  Nat.mul_div_cancel_left g (by norm_num [PAYLOAD_SIZE])

/-- `get_state`, same-salt case: the block's salt equals the last seen
salt and is cached with no retirement mark; the block is accepted exactly
at `first + counter`. -/
lemma get_state_current (data : List Nat) (ipos : Nat)
    (pass s : List Nat) (m : List (List Nat × StreamState))
    (pos : Nat) (pl : List Nat) (g c : Nat) (st : StreamState)
    (hlk : m.lookup s = some st) (hst : st.next_stream_block = none)
    (hfirst : st.first_stream_chunk + (c : Int) = (g : Int)) :
    get_state (mkReader data ipos pass m (some s) pos pl (PAYLOAD_SIZE * g))
        (parsedHeader c s) =
      .ok (mkReader data ipos pass m (some s) pos pl (PAYLOAD_SIZE * g), st) := by
  rw [get_state]
  simp only [mkReader, parsedHeader, div_payload]
  rw [if_neg (by simp)]
  simp only [hlk, hst]
  rw [if_neg (by simp)]
  rw [if_pos hfirst.symm]

/-- `get_state`, same-salt case, wrong counter: rejected with
InvalidBlockCounter. -/
lemma get_state_current_bad (data : List Nat) (ipos : Nat)
    (pass s : List Nat) (m : List (List Nat × StreamState))
    (pos : Nat) (pl : List Nat) (g c : Nat) (st : StreamState)
    (hlk : m.lookup s = some st) (hst : st.next_stream_block = none)
    (hfirst : st.first_stream_chunk + (c : Int) ≠ (g : Int)) :
    get_state (mkReader data ipos pass m (some s) pos pl (PAYLOAD_SIZE * g))
        (parsedHeader c s) =
      .error .invalidBlockCounter := by
  rw [get_state]
  simp only [mkReader, parsedHeader, div_payload]
  rw [if_neg (by simp)]
  simp only [hlk, hst]
  rw [if_neg (by simp)]
  rw [if_neg fun h => hfirst h.symm]

/-- `get_state`, fresh-salt case with no previous stream: derive the key,
record `first = g - counter` when non-negative. -/
lemma get_state_fresh_none (data : List Nat) (ipos : Nat)
    (pass s : List Nat) (m : List (List Nat × StreamState))
    (pos : Nat) (pl : List Nat) (g c : Nat)
    (hlk : m.lookup s = none) (hg : c ≤ g) :
    get_state (mkReader data ipos pass m none pos pl (PAYLOAD_SIZE * g))
        (parsedHeader c s) =
      .ok (mkReader data ipos pass
          ((s, mkStream (genKey pass s) ((g : Int) - c) none) :: m)
          (some s) pos pl (PAYLOAD_SIZE * g),
        mkStream (genKey pass s) ((g : Int) - c) none) := by
  rw [get_state]
  simp only [mkReader, parsedHeader, div_payload]
  simp only [hlk]
  rw [if_neg (by push_neg; omega)]
  simp [mkStream, generate_key, generate_key_full, genKey, parsedHeader]

/-- `get_state`, fresh-salt case after a different stream `sl`: retire
`sl` at the current block, then derive and cache the new sub-stream. -/
lemma get_state_fresh_prev (data : List Nat) (ipos : Nat)
    (pass s sl : List Nat) (m : List (List Nat × StreamState))
    (pos : Nat) (pl : List Nat) (g c : Nat) (stl : StreamState)
    (hne : sl ≠ s) (hlkl : m.lookup sl = some stl)
    (hlk : m.lookup s = none) (hg : c ≤ g) :
    get_state (mkReader data ipos pass m (some sl) pos pl (PAYLOAD_SIZE * g))
        (parsedHeader c s) =
      .ok (mkReader data ipos pass
          ((s, mkStream (genKey pass s) ((g : Int) - c) none)
            :: updateNext m sl (g : Int))
          (some s) pos pl (PAYLOAD_SIZE * g),
        mkStream (genKey pass s) ((g : Int) - c) none) := by
  rw [get_state]
  simp only [mkReader, parsedHeader, div_payload]
  rw [if_pos hne]
  simp only [hlkl]
  rw [lookup_updateNext_ne m s sl _ (fun h => hne h.symm)]
  simp only [hlk]
  rw [if_neg (by push_neg; omega)]
  simp [mkStream, generate_key, generate_key_full, genKey, parsedHeader]

/-- `get_state`, fresh-salt case with a backdated counter
(`counter > current block`): rejected with InvalidBlockCounter. -/
lemma get_state_fresh_neg (data : List Nat) (ipos : Nat)
    (pass s : List Nat) (m : List (List Nat × StreamState))
    (pos : Nat) (pl : List Nat) (g c : Nat)
    (hlk : m.lookup s = none) (hg : g < c) :
    get_state (mkReader data ipos pass m none pos pl (PAYLOAD_SIZE * g))
        (parsedHeader c s) =
      .error .invalidBlockCounter := by
  rw [get_state]
  simp only [mkReader, parsedHeader, div_payload]
  simp only [hlk]
  rw [if_pos (by omega)]

/-- `get_state`, revisited retired stream: the salt is cached with a
retirement mark at or before the current block; rejected. -/
lemma get_state_retired (data : List Nat) (ipos : Nat)
    (pass s sl : List Nat) (m : List (List Nat × StreamState))
    (pos : Nat) (pl : List Nat) (g c : Nat) (st stl : StreamState)
    (hne : sl ≠ s) (hlkl : m.lookup sl = some stl)
    (hlk : m.lookup s = some st) (nb : Int)
    (hnb : st.next_stream_block = some nb) (hle : nb ≤ (g : Int)) :
    get_state (mkReader data ipos pass m (some sl) pos pl (PAYLOAD_SIZE * g))
        (parsedHeader c s) =
      .error .invalidBlockCounter := by
  rw [get_state]
  simp only [mkReader, parsedHeader, div_payload]
  rw [if_pos hne]
  simp only [hlkl]
  rw [lookup_updateNext_ne m s sl _ (fun h => hne h.symm)]
  simp only [hlk, hnb]
  rw [if_pos (by simpa using hle)]

lemma rem_length_ge (data : List Nat) (ipos : Nat) (k s : List Nat)
    (c : Nat) (p rest : List Nat) (hs : s.length = 10)
    (hp : p.length = PAYLOAD_SIZE)
    (hrem : data.drop ipos = mkBlock k s c p ++ rest) :
    (data.drop ipos).length = BLOCK_SIZE + rest.length := by
  rw [hrem, List.length_append, mkBlock_length k s c p hs hp]

/-- `read_chunk` on a genuine next block of the current sub-stream:
decode succeeds, the source advances one block, the payload is recovered. -/
lemma read_chunk_current (data : List Nat) (ipos : Nat)
    (pass k s : List Nat) (m : List (List Nat × StreamState))
    (pos : Nat) (pl : List Nat) (g c : Nat) (st : StreamState)
    (p rest : List Nat) (hs : s.length = 10) (hp : p.length = PAYLOAD_SIZE)
    (hc : c < U32_MOD)
    (hrem : data.drop ipos = mkBlock k s c p ++ rest)
    (hlk : m.lookup s = some st) (hkey : st.key = k)
    (hst : st.next_stream_block = none)
    (hfirst : st.first_stream_chunk + (c : Int) = (g : Int)) :
    read_chunk (mkReader data ipos pass m (some s) pos pl (PAYLOAD_SIZE * g)) =
      .ok (true,
        mkReader data (ipos + BLOCK_SIZE) pass m (some s) 0 p
          (PAYLOAD_SIZE * g)) := by
  have hgs := get_state_current data (ipos + BLOCK_SIZE) pass s m PAYLOAD_SIZE
    pl g c st hlk hst hfirst
  dsimp only [mkReader] at hgs
  dsimp only [read_chunk, mkReader]
  rw [hrem]
  rw [List.length_append, mkBlock_length k s c p hs hp]
  rw [if_neg (by simp [BLOCK_SIZE, HEADER_SIZE, PAYLOAD_SIZE, POLY_TAG_SIZE])]
  rw [if_neg (by omega)]
  rw [mkBlock_take_block k s c p rest hs hp]
  dsimp only [decode_block]
  rw [ofBytes_mkBlock k s c p hs hc]
  rw [if_neg (by simp [magic_ok_parsed])]
  rw [if_neg (by simp [parsedHeader])]
  rw [hgs]
  dsimp only []
  rw [nonce_parsed_eq, mkBlock_ct k s c p hs hp, mkBlock_tag k s c p hs hp]
  rw [hkey, decrypt_encrypt]

/-- `read_chunk` on a genuine first block of a new sub-stream, no stream
seen before (fresh reader, or right after a seek): the key is derived and
cached, the block accepted at `first = g - counter`. -/
lemma read_chunk_fresh_none (data : List Nat) (ipos : Nat)
    (pass k s : List Nat) (m : List (List Nat × StreamState))
    (pos : Nat) (pl : List Nat) (g c : Nat)
    (p rest : List Nat) (hs : s.length = 10) (hp : p.length = PAYLOAD_SIZE)
    (hc : c < U32_MOD)
    (hrem : data.drop ipos = mkBlock k s c p ++ rest)
    (hlk : m.lookup s = none) (hk : k = genKey pass s) (hg : c ≤ g) :
    read_chunk (mkReader data ipos pass m none pos pl (PAYLOAD_SIZE * g)) =
      .ok (true,
        mkReader data (ipos + BLOCK_SIZE) pass
          ((s, mkStream (genKey pass s) ((g : Int) - c) none) :: m)
          (some s) 0 p (PAYLOAD_SIZE * g)) := by
  subst hk
  have hgs := get_state_fresh_none data (ipos + BLOCK_SIZE) pass s m
    PAYLOAD_SIZE pl g c hlk hg
  dsimp only [mkReader] at hgs
  dsimp only [read_chunk, mkReader]
  rw [hrem]
  rw [List.length_append, mkBlock_length _ s c p hs hp]
  rw [if_neg (by simp [BLOCK_SIZE, HEADER_SIZE, PAYLOAD_SIZE, POLY_TAG_SIZE])]
  rw [if_neg (by omega)]
  rw [mkBlock_take_block _ s c p rest hs hp]
  dsimp only [decode_block]
  rw [ofBytes_mkBlock _ s c p hs hc]
  rw [if_neg (by simp [magic_ok_parsed])]
  rw [if_neg (by simp [parsedHeader])]
  rw [hgs]
  dsimp only [mkStream]
  rw [nonce_parsed_eq, mkBlock_ct _ s c p hs hp, mkBlock_tag _ s c p hs hp]
  rw [decrypt_encrypt]

/-- `read_chunk` on a genuine first block of a new sub-stream appearing
after another stream `sl`: `sl` is retired at the current block, the new
sub-stream is derived and cached, its block accepted. -/
lemma read_chunk_fresh_prev (data : List Nat) (ipos : Nat)
    (pass k s sl : List Nat) (m : List (List Nat × StreamState))
    (pos : Nat) (pl : List Nat) (g c : Nat) (stl : StreamState)
    (p rest : List Nat) (hs : s.length = 10) (hp : p.length = PAYLOAD_SIZE)
    (hc : c < U32_MOD)
    (hrem : data.drop ipos = mkBlock k s c p ++ rest)
    (hne : sl ≠ s) (hlkl : m.lookup sl = some stl)
    (hlk : m.lookup s = none) (hk : k = genKey pass s) (hg : c ≤ g) :
    read_chunk (mkReader data ipos pass m (some sl) pos pl (PAYLOAD_SIZE * g)) =
      .ok (true,
        mkReader data (ipos + BLOCK_SIZE) pass
          ((s, mkStream (genKey pass s) ((g : Int) - c) none)
            :: updateNext m sl (g : Int))
          (some s) 0 p (PAYLOAD_SIZE * g)) := by
  subst hk
  have hgs := get_state_fresh_prev data (ipos + BLOCK_SIZE) pass s sl m
    PAYLOAD_SIZE pl g c stl hne hlkl hlk hg
  dsimp only [mkReader] at hgs
  dsimp only [read_chunk, mkReader]
  rw [hrem]
  rw [List.length_append, mkBlock_length _ s c p hs hp]
  rw [if_neg (by simp [BLOCK_SIZE, HEADER_SIZE, PAYLOAD_SIZE, POLY_TAG_SIZE])]
  rw [if_neg (by omega)]
  rw [mkBlock_take_block _ s c p rest hs hp]
  dsimp only [decode_block]
  rw [ofBytes_mkBlock _ s c p hs hc]
  rw [if_neg (by simp [magic_ok_parsed])]
  rw [if_neg (by simp [parsedHeader])]
  rw [hgs]
  dsimp only [mkStream]
  rw [nonce_parsed_eq, mkBlock_ct _ s c p hs hp, mkBlock_tag _ s c p hs hp]
  rw [decrypt_encrypt]

/-- `read_chunk` on a same-stream block carrying the wrong counter for the
current position: InvalidBlockCounter. -/
lemma read_chunk_current_bad (data : List Nat) (ipos : Nat)
    (pass k s : List Nat) (m : List (List Nat × StreamState))
    (pos : Nat) (pl : List Nat) (g c : Nat) (st : StreamState)
    (p rest : List Nat) (hs : s.length = 10) (hp : p.length = PAYLOAD_SIZE)
    (hc : c < U32_MOD)
    (hrem : data.drop ipos = mkBlock k s c p ++ rest)
    (hlk : m.lookup s = some st)
    (hst : st.next_stream_block = none)
    (hfirst : st.first_stream_chunk + (c : Int) ≠ (g : Int)) :
    read_chunk (mkReader data ipos pass m (some s) pos pl (PAYLOAD_SIZE * g)) =
      .error .invalidBlockCounter := by
  have hgs := get_state_current_bad data (ipos + BLOCK_SIZE) pass s m
    PAYLOAD_SIZE pl g c st hlk hst hfirst
  dsimp only [mkReader] at hgs
  dsimp only [read_chunk, mkReader]
  rw [hrem]
  rw [List.length_append, mkBlock_length k s c p hs hp]
  rw [if_neg (by simp [BLOCK_SIZE, HEADER_SIZE, PAYLOAD_SIZE, POLY_TAG_SIZE])]
  rw [if_neg (by omega)]
  rw [mkBlock_take_block k s c p rest hs hp]
  dsimp only [decode_block]
  rw [ofBytes_mkBlock k s c p hs hc]
  rw [if_neg (by simp [magic_ok_parsed])]
  rw [if_neg (by simp [parsedHeader])]
  rw [hgs]

/-- `read_chunk` on a fresh-salt block whose counter exceeds the current
block index (`first` would be negative): InvalidBlockCounter. -/
lemma read_chunk_fresh_neg (data : List Nat) (ipos : Nat)
    (pass k s : List Nat) (m : List (List Nat × StreamState))
    (pos : Nat) (pl : List Nat) (g c : Nat)
    (p rest : List Nat) (hs : s.length = 10) (hp : p.length = PAYLOAD_SIZE)
    (hc : c < U32_MOD)
    (hrem : data.drop ipos = mkBlock k s c p ++ rest)
    (hlk : m.lookup s = none) (hg : g < c) :
    read_chunk (mkReader data ipos pass m none pos pl (PAYLOAD_SIZE * g)) =
      .error .invalidBlockCounter := by
  have hgs := get_state_fresh_neg data (ipos + BLOCK_SIZE) pass s m
    PAYLOAD_SIZE pl g c hlk hg
  dsimp only [mkReader] at hgs
  dsimp only [read_chunk, mkReader]
  rw [hrem]
  rw [List.length_append, mkBlock_length k s c p hs hp]
  rw [if_neg (by simp [BLOCK_SIZE, HEADER_SIZE, PAYLOAD_SIZE, POLY_TAG_SIZE])]
  rw [if_neg (by omega)]
  rw [mkBlock_take_block k s c p rest hs hp]
  dsimp only [decode_block]
  rw [ofBytes_mkBlock k s c p hs hc]
  rw [if_neg (by simp [magic_ok_parsed])]
  rw [if_neg (by simp [parsedHeader])]
  rw [hgs]

/-- `read_chunk` on a block of a retired sub-stream reappearing at or
after its retirement boundary: InvalidBlockCounter. -/
lemma read_chunk_retired (data : List Nat) (ipos : Nat)
    (pass k s sl : List Nat) (m : List (List Nat × StreamState))
    (pos : Nat) (pl : List Nat) (g c : Nat) (st stl : StreamState)
    (p rest : List Nat) (hs : s.length = 10) (hp : p.length = PAYLOAD_SIZE)
    (hc : c < U32_MOD)
    (hrem : data.drop ipos = mkBlock k s c p ++ rest)
    (hne : sl ≠ s) (hlkl : m.lookup sl = some stl)
    (hlk : m.lookup s = some st) (nb : Int)
    (hnb : st.next_stream_block = some nb) (hle : nb ≤ (g : Int)) :
    read_chunk (mkReader data ipos pass m (some sl) pos pl (PAYLOAD_SIZE * g)) =
      .error .invalidBlockCounter := by
  have hgs := get_state_retired data (ipos + BLOCK_SIZE) pass s sl m
    PAYLOAD_SIZE pl g c st stl hne hlkl hlk nb hnb hle
  dsimp only [mkReader] at hgs
  dsimp only [read_chunk, mkReader]
  rw [hrem]
  rw [List.length_append, mkBlock_length k s c p hs hp]
  rw [if_neg (by simp [BLOCK_SIZE, HEADER_SIZE, PAYLOAD_SIZE, POLY_TAG_SIZE])]
  rw [if_neg (by omega)]
  rw [mkBlock_take_block k s c p rest hs hp]
  dsimp only [decode_block]
  rw [ofBytes_mkBlock k s c p hs hc]
  rw [if_neg (by simp [magic_ok_parsed])]
  rw [if_neg (by simp [parsedHeader])]
  rw [hgs]

/-- `read_chunk` at end of stream: `Ok(false)` with only the chunk cursor
parked. -/
lemma read_chunk_eof (data : List Nat) (ipos : Nat)
    (pass : List Nat) (m : List (List Nat × StreamState))
    (last : Option (List Nat)) (pos : Nat) (pl : List Nat) (g : Nat)
    (hrem : data.drop ipos = []) :
    read_chunk (mkReader data ipos pass m last pos pl g) =
      .ok (false, mkReader data ipos pass m last PAYLOAD_SIZE pl g) := by
  dsimp only [read_chunk, mkReader]
  rw [hrem]
  simp

/-! ## read and read_to_end composition -/

lemma readCore_full (data : List Nat) (ipos : Nat) (pass : List Nat)
    (m : List (List Nat × StreamState)) (last : Option (List Nat))
    (p : List Nat) (g : Nat) (hp : p.length = PAYLOAD_SIZE) :
    readCore (mkReader data ipos pass m last 0 p (PAYLOAD_SIZE * g))
        PAYLOAD_SIZE =
      (mkReader data ipos pass m last PAYLOAD_SIZE p (PAYLOAD_SIZE * (g + 1)),
        p) := by
  dsimp only [readCore, mkReader]
  rw [Nat.sub_zero, min_self, List.drop_zero, List.take_of_length_le (le_of_eq hp)]
  rw [Nat.zero_add, Nat.mul_add, Nat.mul_one]

/-- One `read` during `read_to_end`, decoding a genuine next block with
payload `p`: the loop continues with `p` appended. -/
lemma read_to_end_step (fuel : Nat) (r : ReaderState) (data : List Nat)
    (ipos : Nat) (pass : List Nat) (m : List (List Nat × StreamState))
    (last : Option (List Nat)) (p : List Nat) (g : Nat) (acc : List Nat)
    (hpos : r.current_chunk_position = PAYLOAD_SIZE)
    (hp : p.length = PAYLOAD_SIZE)
    (hchunk : read_chunk r =
      .ok (true, mkReader data ipos pass m last 0 p (PAYLOAD_SIZE * g))) :
    read_to_end (fuel + 1) r acc =
      read_to_end fuel
        (mkReader data ipos pass m last PAYLOAD_SIZE p (PAYLOAD_SIZE * (g + 1)))
        (acc ++ p) := by
  rw [read_to_end]
  rw [read, if_pos hpos, hchunk]
  dsimp only []
  rw [readCore_full data ipos pass m last p g hp]
  dsimp only []
  rw [if_neg (by
    intro h
    rw [h] at hp
    simp [PAYLOAD_SIZE] at hp)]

/-- `read_to_end` at end of stream: one final 0-byte read finishes. -/
lemma read_to_end_eof (fuel : Nat) (data : List Nat) (ipos : Nat)
    (pass : List Nat) (m : List (List Nat × StreamState))
    (last : Option (List Nat)) (pl : List Nat) (g : Nat) (acc : List Nat)
    (hrem : data.drop ipos = []) :
    read_to_end (fuel + 1)
        (mkReader data ipos pass m last PAYLOAD_SIZE pl g) acc = .ok acc := by
  have hpos : (mkReader data ipos pass m last PAYLOAD_SIZE pl
      g).current_chunk_position = PAYLOAD_SIZE := rfl
  rw [read_to_end]
  rw [read, if_pos hpos,
    read_chunk_eof data ipos pass m last PAYLOAD_SIZE pl g hrem]
  dsimp only []
  rw [if_pos rfl]

/-- `read_to_end` propagates a block-decode failure. -/
lemma read_to_end_err (fuel : Nat) (r : ReaderState) (acc : List Nat)
    (e : Err) (hpos : r.current_chunk_position = PAYLOAD_SIZE)
    (hchunk : read_chunk r = .error e) :
    read_to_end (fuel + 1) r acc = .error e := by
  rw [read_to_end]
  rw [read, if_pos hpos, hchunk]

/-- Decoding a whole run of consecutive blocks of the current sub-stream:
the loop accumulates exactly the payloads and advances block by block. -/
lemma read_to_end_run (ps : List (List Nat)) : ∀ (fuel : Nat)
    (data : List Nat) (ipos : Nat) (pass k s : List Nat)
    (m : List (List Nat × StreamState)) (pl : List Nat) (g c0 : Nat)
    (st : StreamState) (acc rest : List Nat),
    (∀ p ∈ ps, p.length = PAYLOAD_SIZE) → s.length = 10 →
    c0 + ps.length ≤ U32_MOD →
    data.drop ipos = (blockSeq k s c0 ps).flatten ++ rest →
    m.lookup s = some st → st.key = k → st.next_stream_block = none →
    st.first_stream_chunk + (c0 : Int) = (g : Int) →
    ∃ pl', read_to_end (ps.length + fuel)
        (mkReader data ipos pass m (some s) PAYLOAD_SIZE pl
          (PAYLOAD_SIZE * g)) acc =
      read_to_end fuel
        (mkReader data (ipos + BLOCK_SIZE * ps.length) pass m (some s)
          PAYLOAD_SIZE pl' (PAYLOAD_SIZE * (g + ps.length)))
        (acc ++ ps.flatten) := by
  induction ps with
  | nil =>
    intro fuel data ipos pass k s m pl g c0 st acc rest _ _ _ _ _ _ _ _
    refine ⟨pl, ?_⟩
    simp
  | cons p ps ih =>
    intro fuel data ipos pass k s m pl g c0 st acc rest hps hs hcnt hrem
      hlk hkey hst hfirst
    have hp : p.length = PAYLOAD_SIZE := hps p (by simp)
    have hrem1 : data.drop ipos =
        mkBlock k s c0 p ++ ((blockSeq k s (c0 + 1) ps).flatten ++ rest) := by
      rw [hrem, blockSeq_cons]
      simp
    have hc0 : c0 < U32_MOD := by
      simp [List.length_cons] at hcnt
      omega
    have hchunk := read_chunk_current data ipos pass k s m PAYLOAD_SIZE pl g
      c0 st p ((blockSeq k s (c0 + 1) ps).flatten ++ rest) hs hp hc0 hrem1 hlk
      hkey hst hfirst
    have hlen : (p :: ps).length + fuel = (ps.length + fuel) + 1 := by
      simp [List.length_cons]
      try omega
    rw [hlen]
    rw [read_to_end_step (ps.length + fuel) _ data (ipos + BLOCK_SIZE) pass m
      (some s) p g acc rfl hp hchunk]
    have hrem2 : data.drop (ipos + BLOCK_SIZE) =
        (blockSeq k s (c0 + 1) ps).flatten ++ rest := by
      have hd : data.drop (ipos + BLOCK_SIZE) =
          (data.drop ipos).drop BLOCK_SIZE := by
        rw [List.drop_drop]
        try (congr 1; omega)
      rw [hd, hrem1]
      exact mkBlock_drop_block k s c0 p _ hs hp
    have hfirst1 : st.first_stream_chunk + ((c0 + 1 : Nat) : Int) =
        ((g + 1 : Nat) : Int) := by
      push_cast
      push_cast at hfirst
      omega
    have hrec := ih fuel data (ipos + BLOCK_SIZE) pass k s m p (g + 1)
      (c0 + 1) st (acc ++ p) rest (fun q hq => hps q (by simp [hq]))
      hs (by simp at hcnt ⊢; omega) hrem2 hlk hkey hst hfirst1
    rcases hrec with ⟨pl', hpl'⟩
    refine ⟨pl', ?_⟩
    rw [hpl']
    have h1 : ipos + BLOCK_SIZE + BLOCK_SIZE * ps.length =
        ipos + BLOCK_SIZE * (p :: ps).length := by
      simp [List.length_cons]
      ring
    have h2 : g + 1 + ps.length = g + (p :: ps).length := by
      simp [List.length_cons]
      try omega
    have h3 : acc ++ p ++ ps.flatten = acc ++ (p :: ps).flatten := by simp
    rw [h1, h2, h3]

lemma blockSeq_join_length (k s : List Nat) (hs : s.length = 10) :
    ∀ (ps : List (List Nat)) (c0 : Nat), (∀ p ∈ ps, p.length = PAYLOAD_SIZE) →
    ((blockSeq k s c0 ps).flatten).length = BLOCK_SIZE * ps.length := by
  intro ps
  induction ps with
  | nil => intro c0 _; simp [blockSeq_nil]
  | cons p ps ih =>
    intro c0 hps
    rw [blockSeq_cons]
    simp only [List.flatten_cons, List.length_append]
    rw [mkBlock_length k s c0 p hs (hps p (by simp))]
    rw [ih (c0 + 1) (fun q hq => hps q (by simp [hq]))]
    simp [List.length_cons]
    ring

/-- Decoding a whole fresh sub-stream (counters from 0) on a reader that
has not seen any stream yet at this position: the new sub-stream is cached
with `first = g` and all payloads accumulate. -/
lemma read_to_end_stream_none (ps : List (List Nat)) (fuel : Nat)
    (data : List Nat) (ipos : Nat) (pass k s : List Nat)
    (m : List (List Nat × StreamState)) (pl : List Nat) (g : Nat)
    (acc rest : List Nat) (hne : ps ≠ [])
    (hps : ∀ p ∈ ps, p.length = PAYLOAD_SIZE) (hs : s.length = 10)
    (hcnt : ps.length ≤ U32_MOD)
    (hrem : data.drop ipos = (blockSeq k s 0 ps).flatten ++ rest)
    (hk : k = genKey pass s) (hlk : m.lookup s = none) :
    ∃ st' pl', st'.key = genKey pass s ∧
      st'.first_stream_chunk = (g : Int) ∧
      st'.next_stream_block = none ∧
      read_to_end (ps.length + fuel)
        (mkReader data ipos pass m none PAYLOAD_SIZE pl (PAYLOAD_SIZE * g))
        acc =
      read_to_end fuel
        (mkReader data (ipos + BLOCK_SIZE * ps.length) pass ((s, st') :: m)
          (some s) PAYLOAD_SIZE pl' (PAYLOAD_SIZE * (g + ps.length)))
        (acc ++ ps.flatten) := by
  cases ps with
  | nil => exact absurd rfl hne
  | cons p ps =>
    have hp : p.length = PAYLOAD_SIZE := hps p (by simp)
    have hrem1 : data.drop ipos =
        mkBlock k s 0 p ++ ((blockSeq k s 1 ps).flatten ++ rest) := by
      rw [hrem, blockSeq_cons]
      simp
    have hchunk := read_chunk_fresh_none data ipos pass k s m PAYLOAD_SIZE pl
      g 0 p ((blockSeq k s 1 ps).flatten ++ rest) hs hp
      (by norm_num [U32_MOD]) hrem1 hlk hk (Nat.zero_le g)
    refine ⟨mkStream (genKey pass s) ((g : Int) - ((0 : Nat) : Int)) none,
      ?_⟩
    have hlen : (p :: ps).length + fuel = (ps.length + fuel) + 1 := by
      simp [List.length_cons]
      try omega
    have hstep := read_to_end_step (ps.length + fuel) _ data
      (ipos + BLOCK_SIZE) pass
      ((s, mkStream (genKey pass s) ((g : Int) - ((0 : Nat) : Int)) none) :: m)
      (some s) p g acc rfl hp hchunk
    have hrem2 : data.drop (ipos + BLOCK_SIZE) =
        (blockSeq k s 1 ps).flatten ++ rest := by
      have hd : data.drop (ipos + BLOCK_SIZE) =
          (data.drop ipos).drop BLOCK_SIZE := by
        rw [List.drop_drop]
        try (congr 1; omega)
      rw [hd, hrem1]
      exact mkBlock_drop_block k s 0 p _ hs hp
    have hrun := read_to_end_run ps fuel data (ipos + BLOCK_SIZE) pass k s
      ((s, mkStream (genKey pass s) ((g : Int) - ((0 : Nat) : Int)) none) :: m)
      p (g + 1) 1
      (mkStream (genKey pass s) ((g : Int) - ((0 : Nat) : Int)) none)
      (acc ++ p) rest (fun q hq => hps q (by simp [hq])) hs
      (by simp at hcnt ⊢; omega) hrem2
      (by rw [lookup_cons_streams]; simp) (by rw [hk]; rfl) rfl
      (by simp [mkStream]; try (push_cast; omega))
    rcases hrun with ⟨pl', hrun⟩
    refine ⟨pl', rfl, by simp [mkStream], rfl, ?_⟩
    rw [hlen, hstep, hrun]
    have h1 : ipos + BLOCK_SIZE + BLOCK_SIZE * ps.length =
        ipos + BLOCK_SIZE * (p :: ps).length := by
      simp [List.length_cons]
      ring
    have h2 : g + 1 + ps.length = g + (p :: ps).length := by
      simp [List.length_cons]
      try omega
    have h3 : acc ++ p ++ ps.flatten = acc ++ (p :: ps).flatten := by simp
    rw [h1, h2, h3]

/-- Decoding a whole fresh sub-stream right after another sub-stream `sl`:
`sl` is retired at the boundary `g`, the new sub-stream cached with
`first = g`, and all payloads accumulate. -/
lemma read_to_end_stream_prev (ps : List (List Nat)) (fuel : Nat)
    (data : List Nat) (ipos : Nat) (pass k s sl : List Nat)
    (m : List (List Nat × StreamState)) (stl : StreamState) (pl : List Nat)
    (g : Nat) (acc rest : List Nat) (hne : ps ≠ [])
    (hps : ∀ p ∈ ps, p.length = PAYLOAD_SIZE) (hs : s.length = 10)
    (hcnt : ps.length ≤ U32_MOD)
    (hrem : data.drop ipos = (blockSeq k s 0 ps).flatten ++ rest)
    (hk : k = genKey pass s) (hnesl : sl ≠ s)
    (hlkl : m.lookup sl = some stl) (hlk : m.lookup s = none) :
    ∃ st' pl', st'.key = genKey pass s ∧
      st'.first_stream_chunk = (g : Int) ∧
      st'.next_stream_block = none ∧
      read_to_end (ps.length + fuel)
        (mkReader data ipos pass m (some sl) PAYLOAD_SIZE pl
          (PAYLOAD_SIZE * g)) acc =
      read_to_end fuel
        (mkReader data (ipos + BLOCK_SIZE * ps.length) pass
          ((s, st') :: updateNext m sl (g : Int))
          (some s) PAYLOAD_SIZE pl' (PAYLOAD_SIZE * (g + ps.length)))
        (acc ++ ps.flatten) := by
  cases ps with
  | nil => exact absurd rfl hne
  | cons p ps =>
    have hp : p.length = PAYLOAD_SIZE := hps p (by simp)
    have hrem1 : data.drop ipos =
        mkBlock k s 0 p ++ ((blockSeq k s 1 ps).flatten ++ rest) := by
      rw [hrem, blockSeq_cons]
      simp
    have hchunk := read_chunk_fresh_prev data ipos pass k s sl m PAYLOAD_SIZE
      pl g 0 stl p ((blockSeq k s 1 ps).flatten ++ rest) hs hp
      (by norm_num [U32_MOD]) hrem1 hnesl hlkl hlk hk (Nat.zero_le g)
    refine ⟨mkStream (genKey pass s) ((g : Int) - ((0 : Nat) : Int)) none,
      ?_⟩
    have hlen : (p :: ps).length + fuel = (ps.length + fuel) + 1 := by
      simp [List.length_cons]
      try omega
    have hstep := read_to_end_step (ps.length + fuel) _ data
      (ipos + BLOCK_SIZE) pass
      ((s, mkStream (genKey pass s) ((g : Int) - ((0 : Nat) : Int)) none)
        :: updateNext m sl (g : Int))
      (some s) p g acc rfl hp hchunk
    have hrem2 : data.drop (ipos + BLOCK_SIZE) =
        (blockSeq k s 1 ps).flatten ++ rest := by
      have hd : data.drop (ipos + BLOCK_SIZE) =
          (data.drop ipos).drop BLOCK_SIZE := by
        rw [List.drop_drop]
        try (congr 1; omega)
      rw [hd, hrem1]
      exact mkBlock_drop_block k s 0 p _ hs hp
    have hrun := read_to_end_run ps fuel data (ipos + BLOCK_SIZE) pass k s
      ((s, mkStream (genKey pass s) ((g : Int) - ((0 : Nat) : Int)) none)
        :: updateNext m sl (g : Int))
      p (g + 1) 1
      (mkStream (genKey pass s) ((g : Int) - ((0 : Nat) : Int)) none)
      (acc ++ p) rest (fun q hq => hps q (by simp [hq])) hs
      (by simp at hcnt ⊢; omega) hrem2
      (by rw [lookup_cons_streams]; simp) (by rw [hk]; rfl) rfl
      (by simp [mkStream]; try (push_cast; omega))
    rcases hrun with ⟨pl', hrun⟩
    refine ⟨pl', rfl, by simp [mkStream], rfl, ?_⟩
    rw [hlen, hstep, hrun]
    have h1 : ipos + BLOCK_SIZE + BLOCK_SIZE * ps.length =
        ipos + BLOCK_SIZE * (p :: ps).length := by
      simp [List.length_cons]
      ring
    have h2 : g + 1 + ps.length = g + (p :: ps).length := by
      simp [List.length_cons]
      try omega
    have h3 : acc ++ p ++ ps.flatten = acc ++ (p :: ps).flatten := by simp
    rw [h1, h2, h3]

lemma padChunks_length_aux (fuel : Nat) : ∀ B : List Nat, B.length ≤ fuel →
    (padChunks B).length = (B.length + PAYLOAD_SIZE - 1) / PAYLOAD_SIZE := by
  induction fuel with
  | zero =>
    intro B hB
    have h0 : B = [] := List.eq_nil_of_length_eq_zero (Nat.le_zero.mp hB)
    subst h0
    rw [padChunks_nil]
    norm_num [PAYLOAD_SIZE]
  | succ fuel ih =>
    intro B hB
    by_cases h0 : B = []
    · subst h0
      rw [padChunks_nil]
      norm_num [PAYLOAD_SIZE]
    · have hpos : 0 < B.length := List.length_pos.mpr h0
      rcases Nat.lt_or_ge B.length PAYLOAD_SIZE with hsmall | hbig
      · rw [padChunks_small B h0 (le_of_lt hsmall)]
        simp only [List.length_cons, List.length_nil, PAYLOAD_SIZE] at *
        omega
      · rw [padChunks_cons B hbig]
        rw [List.length_cons, ih (B.drop PAYLOAD_SIZE)
          (by simp only [List.length_drop, PAYLOAD_SIZE] at *; omega)]
        simp only [List.length_drop, PAYLOAD_SIZE] at *
        omega

/-- Number of blocks the writer emits for a plaintext `B`. -/
lemma padChunks_length (B : List Nat) :
    (padChunks B).length = (B.length + PAYLOAD_SIZE - 1) / PAYLOAD_SIZE :=
  padChunks_length_aux B.length B (le_refl _)

lemma padChunks_mem_length_aux (fuel : Nat) : ∀ B : List Nat,
    B.length ≤ fuel → ∀ p ∈ padChunks B, p.length = PAYLOAD_SIZE := by
  induction fuel with
  | zero =>
    intro B hB p hp
    have h0 : B = [] := List.eq_nil_of_length_eq_zero (Nat.le_zero.mp hB)
    subst h0
    rw [padChunks_nil] at hp
    simp at hp
  | succ fuel ih =>
    intro B hB p hp
    by_cases h0 : B = []
    · subst h0
      rw [padChunks_nil] at hp
      simp at hp
    · rcases Nat.lt_or_ge B.length PAYLOAD_SIZE with hsmall | hbig
      · rw [padChunks_small B h0 (le_of_lt hsmall)] at hp
        simp at hp
        subst hp
        simp
        omega
      · rw [padChunks_cons B hbig] at hp
        simp at hp
        rcases hp with hp | hp
        · subst hp
          simp
          omega
        · exact ih (B.drop PAYLOAD_SIZE)
            (by simp only [List.length_drop, PAYLOAD_SIZE] at *; omega) p hp

/-- Every padded chunk is exactly PAYLOAD_SIZE long. -/
lemma padChunks_mem_length (B : List Nat) :
    ∀ p ∈ padChunks B, p.length = PAYLOAD_SIZE :=
  padChunks_mem_length_aux B.length B (le_refl _)

lemma padChunks_join_aux (fuel : Nat) : ∀ B : List Nat, B.length ≤ fuel →
    ((padChunks B).flatten).take B.length = B ∧
      B.length ≤ ((padChunks B).flatten).length := by
  induction fuel with
  | zero =>
    intro B hB
    have h0 : B = [] := List.eq_nil_of_length_eq_zero (Nat.le_zero.mp hB)
    subst h0
    rw [padChunks_nil]
    simp
  | succ fuel ih =>
    intro B hB
    by_cases h0 : B = []
    · subst h0
      rw [padChunks_nil]
      simp
    · rcases Nat.lt_or_ge B.length PAYLOAD_SIZE with hsmall | hbig
      · rw [padChunks_small B h0 (le_of_lt hsmall)]
        simp only [List.flatten_cons, List.flatten_nil, List.append_nil]
        constructor
        · rw [List.take_left]
        · simp
      · rw [padChunks_cons B hbig]
        have hrec := ih (B.drop PAYLOAD_SIZE)
          (by simp only [List.length_drop, PAYLOAD_SIZE] at *; omega)
        simp only [List.flatten_cons]
        have hlt : (B.take PAYLOAD_SIZE).length = PAYLOAD_SIZE :=
          List.length_take_of_le hbig
        set a := List.take PAYLOAD_SIZE B with ha
        set dC := B.drop PAYLOAD_SIZE with hd
        constructor
        · have hsplit : B.length = PAYLOAD_SIZE + dC.length := by
            rw [hd]
            simp only [List.length_drop]
            omega
          rw [hsplit, ← hlt, List.take_append]
          rw [hrec.1, ha, hd]
          exact List.take_append_drop PAYLOAD_SIZE B
        · rw [List.length_append, hlt]
          have hdlen : dC.length = B.length - PAYLOAD_SIZE := by
            rw [hd]
            simp
          omega

/-- The decrypted whole-stream output extends the plaintext by
zero-padding only: its prefix of length `|B|` is `B`. -/
lemma padChunks_join (B : List Nat) :
    ((padChunks B).flatten).take B.length = B ∧
      B.length ≤ ((padChunks B).flatten).length :=
  padChunks_join_aux B.length B (le_refl _)

lemma padChunks_flatten_exact_aux (fuel : Nat) : ∀ B : List Nat,
    B.length ≤ fuel → B.length % PAYLOAD_SIZE = 0 →
    (padChunks B).flatten = B := by
  induction fuel with
  | zero =>
    intro B hB _
    have h0 : B = [] := List.eq_nil_of_length_eq_zero (Nat.le_zero.mp hB)
    subst h0
    rw [padChunks_nil]
    rfl
  | succ fuel ih =>
    intro B hB hm
    by_cases h0 : B = []
    · subst h0
      rw [padChunks_nil]
      rfl
    · have hpos : 0 < B.length := List.length_pos.mpr h0
      have hge : PAYLOAD_SIZE ≤ B.length := by
        by_contra hlt
        push_neg at hlt
        rw [Nat.mod_eq_of_lt hlt] at hm
        exact h0 (List.eq_nil_of_length_eq_zero hm)
      rw [padChunks_cons B hge, List.flatten_cons,
        ih (B.drop PAYLOAD_SIZE)
          (by rw [List.length_drop]; simp only [PAYLOAD_SIZE] at *; omega)
          (by rw [List.length_drop]; simp only [PAYLOAD_SIZE] at *; omega)]
      exact List.take_append_drop PAYLOAD_SIZE B

/-- When `|B|` is a multiple of the payload size, the final block carries
no padding and the chunking is exact. -/
lemma padChunks_flatten_exact (B : List Nat)
    (hm : B.length % PAYLOAD_SIZE = 0) : (padChunks B).flatten = B :=
  padChunks_flatten_exact_aux B.length B (le_refl _) hm

lemma padChunks_ne_nil (B : List Nat) (h : B ≠ []) : padChunks B ≠ [] := by
  intro hc
  have hl := congrArg List.length hc
  rw [padChunks_length] at hl
  have hpos : 0 < B.length := List.length_pos.mpr h
  simp only [List.length_nil, PAYLOAD_SIZE] at hl
  omega

/-- Whole-stream decryption of a single sub-stream's ciphertext yields
exactly the concatenation of the payloads. -/
lemma decrypt_blockSeq (pass k s : List Nat) (ps : List (List Nat))
    (hk : k = genKey pass s) (hs : s.length = 10)
    (hps : ∀ p ∈ ps, p.length = PAYLOAD_SIZE)
    (hcnt : ps.length ≤ U32_MOD) :
    decrypt_all pass ((blockSeq k s 0 ps).flatten) = .ok ps.flatten := by
  by_cases hne : ps = []
  · subst hne
    rfl
  · have hdl : ((blockSeq k s 0 ps).flatten).length = BLOCK_SIZE * ps.length :=
      blockSeq_join_length k s hs ps 0 hps
    have h544 : ((blockSeq k s 0 ps).flatten).length = 544 * ps.length := by
      rw [hdl]
      rfl
    rw [decrypt_all]
    have hrnew : readerNew pass ((blockSeq k s 0 ps).flatten) =
        mkReader ((blockSeq k s 0 ps).flatten) 0 pass [] none PAYLOAD_SIZE
          (List.replicate PAYLOAD_SIZE 0) 0 := rfl
    rw [hrnew]
    obtain ⟨st', pl', _, _, _, hread⟩ := read_to_end_stream_none ps
      (((blockSeq k s 0 ps).flatten).length + 2 - ps.length)
      ((blockSeq k s 0 ps).flatten) 0 pass k s []
      (List.replicate PAYLOAD_SIZE 0) 0 [] [] hne hps hs hcnt
      (by simp) hk rfl
    simp only [Nat.mul_zero, Nat.zero_add, Nat.add_zero, List.nil_append]
      at hread
    have hF : ((blockSeq k s 0 ps).flatten).length + 2 =
        ps.length + (((blockSeq k s 0 ps).flatten).length + 2 - ps.length) := by
      omega
    rw [hF, hread]
    have hF2 : ((blockSeq k s 0 ps).flatten).length + 2 - ps.length =
        (((blockSeq k s 0 ps).flatten).length + 1 - ps.length) + 1 := by
      omega
    rw [hF2]
    exact read_to_end_eof _ _ _ _ _ _ _ _ _
      (List.drop_eq_nil_of_le (le_of_eq hdl))

/-- Whole-stream decryption of the concatenation of three sub-stream
ciphertexts with pairwise distinct salts: each fresh sub-stream is
accepted at its position, the previous one is retired, and the payloads
concatenate. -/
lemma decrypt_three_streams (pass s1 s2 s3 : List Nat)
    (ps1 ps2 ps3 : List (List Nat))
    (hs1 : s1.length = 10) (hs2 : s2.length = 10) (hs3 : s3.length = 10)
    (h12 : s1 ≠ s2) (h13 : s1 ≠ s3) (h23 : s2 ≠ s3)
    (hne1 : ps1 ≠ []) (hne2 : ps2 ≠ []) (hne3 : ps3 ≠ [])
    (hp1 : ∀ p ∈ ps1, p.length = PAYLOAD_SIZE)
    (hp2 : ∀ p ∈ ps2, p.length = PAYLOAD_SIZE)
    (hp3 : ∀ p ∈ ps3, p.length = PAYLOAD_SIZE)
    (hc1 : ps1.length ≤ U32_MOD) (hc2 : ps2.length ≤ U32_MOD)
    (hc3 : ps3.length ≤ U32_MOD) :
    decrypt_all pass
      ((blockSeq (genKey pass s1) s1 0 ps1).flatten ++
        ((blockSeq (genKey pass s2) s2 0 ps2).flatten ++
          (blockSeq (genKey pass s3) s3 0 ps3).flatten)) =
      .ok (ps1.flatten ++ ps2.flatten ++ ps3.flatten) := by
  have hdl1 := blockSeq_join_length (genKey pass s1) s1 hs1 ps1 0 hp1
  have hdl2 := blockSeq_join_length (genKey pass s2) s2 hs2 ps2 0 hp2
  have hdl3 := blockSeq_join_length (genKey pass s3) s3 hs3 ps3 0 hp3
  have hDlen : ((blockSeq (genKey pass s1) s1 0 ps1).flatten ++
      ((blockSeq (genKey pass s2) s2 0 ps2).flatten ++
        (blockSeq (genKey pass s3) s3 0 ps3).flatten)).length =
      BLOCK_SIZE * ps1.length + BLOCK_SIZE * ps2.length +
        BLOCK_SIZE * ps3.length := by
    rw [List.length_append, List.length_append, hdl1, hdl2, hdl3]
    omega
  have hd2 : ((blockSeq (genKey pass s1) s1 0 ps1).flatten ++
      ((blockSeq (genKey pass s2) s2 0 ps2).flatten ++
        (blockSeq (genKey pass s3) s3 0 ps3).flatten)).drop
      (BLOCK_SIZE * ps1.length) =
      (blockSeq (genKey pass s2) s2 0 ps2).flatten ++
        (blockSeq (genKey pass s3) s3 0 ps3).flatten := by
    rw [← hdl1]
    exact List.drop_left _ _
  have hd3 : ((blockSeq (genKey pass s1) s1 0 ps1).flatten ++
      ((blockSeq (genKey pass s2) s2 0 ps2).flatten ++
        (blockSeq (genKey pass s3) s3 0 ps3).flatten)).drop
      (BLOCK_SIZE * ps1.length + BLOCK_SIZE * ps2.length) =
      (blockSeq (genKey pass s3) s3 0 ps3).flatten := by
    rw [← List.drop_drop, hd2, ← hdl2]
    exact List.drop_left _ _
  have hd4 : ((blockSeq (genKey pass s1) s1 0 ps1).flatten ++
      ((blockSeq (genKey pass s2) s2 0 ps2).flatten ++
        (blockSeq (genKey pass s3) s3 0 ps3).flatten)).drop
      (BLOCK_SIZE * ps1.length + BLOCK_SIZE * ps2.length +
        BLOCK_SIZE * ps3.length) = [] :=
    List.drop_eq_nil_of_le (le_of_eq hDlen)
  rw [decrypt_all]
  have hrnew : readerNew pass
      ((blockSeq (genKey pass s1) s1 0 ps1).flatten ++
        ((blockSeq (genKey pass s2) s2 0 ps2).flatten ++
          (blockSeq (genKey pass s3) s3 0 ps3).flatten)) =
      mkReader ((blockSeq (genKey pass s1) s1 0 ps1).flatten ++
        ((blockSeq (genKey pass s2) s2 0 ps2).flatten ++
          (blockSeq (genKey pass s3) s3 0 ps3).flatten)) 0 pass [] none
        PAYLOAD_SIZE (List.replicate PAYLOAD_SIZE 0) 0 := rfl
  rw [hrnew]
  obtain ⟨st1, pl1, -, -, -, hread1⟩ := read_to_end_stream_none ps1
    (ps2.length + (ps3.length +
      (((blockSeq (genKey pass s1) s1 0 ps1).flatten ++
        ((blockSeq (genKey pass s2) s2 0 ps2).flatten ++
          (blockSeq (genKey pass s3) s3 0 ps3).flatten)).length + 2 -
        ps1.length - ps2.length - ps3.length)))
    ((blockSeq (genKey pass s1) s1 0 ps1).flatten ++
      ((blockSeq (genKey pass s2) s2 0 ps2).flatten ++
        (blockSeq (genKey pass s3) s3 0 ps3).flatten)) 0 pass
    (genKey pass s1) s1 [] (List.replicate PAYLOAD_SIZE 0) 0 []
    ((blockSeq (genKey pass s2) s2 0 ps2).flatten ++
      (blockSeq (genKey pass s3) s3 0 ps3).flatten)
    hne1 hp1 hs1 hc1 (by rw [List.drop_zero]) rfl rfl
  simp only [Nat.mul_zero, Nat.zero_add, List.nil_append] at hread1
  have hF1 : ((blockSeq (genKey pass s1) s1 0 ps1).flatten ++
      ((blockSeq (genKey pass s2) s2 0 ps2).flatten ++
        (blockSeq (genKey pass s3) s3 0 ps3).flatten)).length + 2 =
      ps1.length + (ps2.length + (ps3.length +
      (((blockSeq (genKey pass s1) s1 0 ps1).flatten ++
        ((blockSeq (genKey pass s2) s2 0 ps2).flatten ++
          (blockSeq (genKey pass s3) s3 0 ps3).flatten)).length + 2 -
        ps1.length - ps2.length - ps3.length))) := by
    rw [hDlen]
    have hB : BLOCK_SIZE = 544 := rfl
    rw [hB]
    omega
  rw [hF1, hread1]
  obtain ⟨st2, pl2, -, -, -, hread2⟩ := read_to_end_stream_prev ps2
    (ps3.length +
      (((blockSeq (genKey pass s1) s1 0 ps1).flatten ++
        ((blockSeq (genKey pass s2) s2 0 ps2).flatten ++
          (blockSeq (genKey pass s3) s3 0 ps3).flatten)).length + 2 -
        ps1.length - ps2.length - ps3.length))
    ((blockSeq (genKey pass s1) s1 0 ps1).flatten ++
      ((blockSeq (genKey pass s2) s2 0 ps2).flatten ++
        (blockSeq (genKey pass s3) s3 0 ps3).flatten))
    (BLOCK_SIZE * ps1.length) pass (genKey pass s2) s2 s1 [(s1, st1)] st1
    pl1 ps1.length ps1.flatten
    ((blockSeq (genKey pass s3) s3 0 ps3).flatten)
    hne2 hp2 hs2 hc2 hd2 rfl h12 (lookup_pair_eq s1 st1 [])
    (by rw [lookup_pair_ne s2 s1 st1 [] (Ne.symm h12)]; rfl)
  rw [hread2]
  obtain ⟨st3, pl3, -, -, -, hread3⟩ := read_to_end_stream_prev ps3
    (((blockSeq (genKey pass s1) s1 0 ps1).flatten ++
      ((blockSeq (genKey pass s2) s2 0 ps2).flatten ++
        (blockSeq (genKey pass s3) s3 0 ps3).flatten)).length + 2 -
      ps1.length - ps2.length - ps3.length)
    ((blockSeq (genKey pass s1) s1 0 ps1).flatten ++
      ((blockSeq (genKey pass s2) s2 0 ps2).flatten ++
        (blockSeq (genKey pass s3) s3 0 ps3).flatten))
    (BLOCK_SIZE * ps1.length + BLOCK_SIZE * ps2.length) pass
    (genKey pass s3) s3 s2
    ((s2, st2) :: updateNext [(s1, st1)] s1 (ps1.length : Int)) st2
    pl2 (ps1.length + ps2.length) (ps1.flatten ++ ps2.flatten) []
    hne3 hp3 hs3 hc3 (by rw [List.append_nil]; exact hd3) rfl h23
    (lookup_pair_eq s2 st2 _)
    (by rw [lookup_pair_ne s3 s2 st2 _ (Ne.symm h23),
      lookup_updateNext_ne _ s3 s1 _ (Ne.symm h13),
      lookup_pair_ne s3 s1 st1 [] (Ne.symm h13)]; rfl)
  rw [hread3]
  have hF4 : ((blockSeq (genKey pass s1) s1 0 ps1).flatten ++
      ((blockSeq (genKey pass s2) s2 0 ps2).flatten ++
        (blockSeq (genKey pass s3) s3 0 ps3).flatten)).length + 2 -
      ps1.length - ps2.length - ps3.length =
      (((blockSeq (genKey pass s1) s1 0 ps1).flatten ++
        ((blockSeq (genKey pass s2) s2 0 ps2).flatten ++
          (blockSeq (genKey pass s3) s3 0 ps3).flatten)).length + 2 -
        ps1.length - ps2.length - ps3.length - 1) + 1 := by
    rw [hDlen]
    have hB : BLOCK_SIZE = 544 := rfl
    rw [hB]
    omega
  rw [hF4]
  exact read_to_end_eof _ _ _ _ _ _ _ _ _ hd4

/-- `get_state` success leaves the source, the chunk cursor and the
decrypted payload untouched: it only updates the sub-stream map and the
last-salt marker. -/
lemma get_state_inv (r : ReaderState) (h : Header) (r' : ReaderState)
    (st : StreamState) (hg : get_state r h = .ok (r', st)) :
    r'.inner = r.inner ∧
    r'.current_chunk_position = r.current_chunk_position ∧
    r'.payload = r.payload := by
  simp only [get_state] at hg
  split at hg
  · simp at hg
  · next r2 heq =>
    have hr2 : r2.inner = r.inner ∧
        r2.current_chunk_position = r.current_chunk_position ∧
        r2.payload = r.payload := by
      split at heq
      · split at heq
        · split at heq
          · simp at heq
          · simp only [Except.ok.injEq] at heq
            subst heq
            exact ⟨rfl, rfl, rfl⟩
        · simp only [Except.ok.injEq] at heq
          subst heq
          exact ⟨rfl, rfl, rfl⟩
      · simp only [Except.ok.injEq] at heq
        subst heq
        exact ⟨rfl, rfl, rfl⟩
    split at hg
    · split at hg
      · simp at hg
      · split at hg
        · simp only [Except.ok.injEq, Prod.mk.injEq] at hg
          obtain ⟨hg1, -⟩ := hg
          subst hg1
          exact hr2
        · simp at hg
    · split at hg
      · simp at hg
      · simp only [Except.ok.injEq, Prod.mk.injEq] at hg
        obtain ⟨hg1, -⟩ := hg
        subst hg1
        exact hr2

/-- `decode_block` success leaves the source untouched and resets the
chunk cursor to 0. -/
lemma decode_block_inv (r : ReaderState) (block : List Nat)
    (r' : ReaderState) (hd : decode_block r block = .ok r') :
    r'.inner = r.inner ∧ r'.current_chunk_position = 0 := by
  simp only [decode_block] at hd
  split at hd
  · simp at hd
  · split at hd
    · simp at hd
    · split at hd
      · simp at hd
      · next r2 st heq =>
        split at hd
        · simp at hd
        · simp only [Except.ok.injEq] at hd
          subst hd
          obtain ⟨hinner, -, -⟩ := get_state_inv _ _ _ _ heq
          exact ⟨hinner, rfl⟩

/-- `read_chunk` success with a block: the source was not at end of
stream, exactly one 544-byte block was consumed from it, and the chunk
cursor lands at 0 over the freshly decrypted payload. -/
lemma read_chunk_inv (r r' : ReaderState)
    (hchunk : read_chunk r = .ok (true, r')) :
    r.inner.data.drop r.inner.ipos ≠ [] ∧
    r'.inner.ipos = r.inner.ipos + BLOCK_SIZE ∧
    r'.inner.data = r.inner.data ∧
    r'.current_chunk_position = 0 := by
  simp only [read_chunk] at hchunk
  split at hchunk
  · simp at hchunk
  · next h0 =>
    split at hchunk
    · simp at hchunk
    · split at hchunk
      · simp at hchunk
      · next r2 heq =>
        simp only [Except.ok.injEq, Prod.mk.injEq, true_and] at hchunk
        subst hchunk
        obtain ⟨hinner, hcur⟩ := decode_block_inv _ _ _ heq
        refine ⟨?_, ?_, ?_, hcur⟩
        · intro hnil
          rw [hnil] at h0
          simp at h0
        · rw [hinner]
        · rw [hinner]

/-- `segRead` conserves bytes: the returned bytes and the remaining
source partition the original source. -/
lemma segRead_conserve (src : List (List Nat)) (cap : Nat) :
    ((segRead src cap).1).length + (((segRead src cap).2).flatten).length =
      (src.flatten).length := by
  cases src with
  | nil => rfl
  | cons seg rest =>
    by_cases hle : seg.length ≤ cap
    · rw [show segRead (seg :: rest) cap = (seg, rest) from by
        simp [segRead, hle]]
      rw [List.flatten_cons, List.length_append]
    · rw [show segRead (seg :: rest) cap =
        (seg.take cap, seg.drop cap :: rest) from by simp [segRead, hle]]
      rw [List.flatten_cons, List.flatten_cons, List.length_append,
        List.length_append, List.length_take, List.length_drop]
      omega

/-- When the source holds fewer bytes than still needed, the
`read_exact` filling loop runs out of data and fails with
`InvalidChunk` (the source's 0-byte read is `UnexpectedEof`). -/
lemma segFill_insufficient (fuel : Nat) : ∀ (src : List (List Nat))
    (need : Nat) (acc : List Nat), 0 < need →
    (src.flatten).length < need → need < fuel →
    segFill fuel src need acc = .error .invalidChunk := by
  induction fuel with
  | zero =>
    intro src need acc h1 h2 h3
    omega
  | succ fuel ih =>
    intro src need acc h1 h2 h3
    rw [segFill]
    rw [if_neg (by omega)]
    cases src with
    | nil => rfl
    | cons seg rest =>
      by_cases hle : seg.length ≤ need
      · rw [show segRead (seg :: rest) need = (seg, rest) from by
          simp [segRead, hle]]
        cases seg with
        | nil => rfl
        | cons b bs =>
          dsimp only []
          rw [List.flatten_cons, List.length_append, List.length_cons] at h2
          exact ih rest (need - (b :: bs).length) (acc ++ (b :: bs))
            (by rw [List.length_cons]; omega)
            (by rw [List.length_cons]; omega)
            (by rw [List.length_cons]; omega)
      · exfalso
        have hge : seg.length ≤ ((seg :: rest).flatten).length := by
          rw [List.flatten_cons, List.length_append]
          omega
        omega

/-- When the next segment supplies exactly the needed bytes, the filling
loop completes the block in one more read. -/
lemma segFill_exact (n : Nat) (seg : List Nat) (rest : List (List Nat))
    (need : Nat) (acc : List Nat) (hne : seg ≠ [])
    (hlen : seg.length = need) (h0 : need ≠ 0) :
    segFill (n + 2) (seg :: rest) need acc = .ok (acc ++ seg, rest) := by
  rw [segFill, if_neg h0]
  rw [show segRead (seg :: rest) need = (seg, rest) from by
    simp [segRead, le_of_eq hlen]]
  cases seg with
  | nil => exact absurd rfl hne
  | cons b bs =>
    dsimp only []
    rw [segFill]
    rw [if_pos (by omega)]

/-- `decode_block` on a genuine block of a brand-new sub-stream, no
stream seen before: the key is derived and cached, the block accepted at
`first = g - counter`, and the payload decrypted. -/
lemma decode_block_fresh_none (data : List Nat) (ipos : Nat)
    (pass k s : List Nat) (m : List (List Nat × StreamState))
    (pl : List Nat) (g c : Nat) (p : List Nat)
    (hs : s.length = 10) (hp : p.length = PAYLOAD_SIZE) (hc : c < U32_MOD)
    (hlk : m.lookup s = none) (hk : k = genKey pass s) (hg : c ≤ g) :
    decode_block (mkReader data ipos pass m none PAYLOAD_SIZE pl
        (PAYLOAD_SIZE * g)) (mkBlock k s c p) =
      .ok (mkReader data ipos pass
        ((s, mkStream (genKey pass s) ((g : Int) - c) none) :: m)
        (some s) 0 p (PAYLOAD_SIZE * g)) := by
  subst hk
  have hgs := get_state_fresh_none data ipos pass s m PAYLOAD_SIZE pl g c
    hlk hg
  dsimp only [mkReader] at hgs
  dsimp only [decode_block, mkReader]
  rw [ofBytes_mkBlock _ s c p hs hc]
  rw [if_neg (by simp [magic_ok_parsed])]
  rw [if_neg (by simp [parsedHeader])]
  rw [hgs]
  dsimp only [mkStream]
  rw [nonce_parsed_eq, mkBlock_ct _ s c p hs hp, mkBlock_tag _ s c p hs hp]
  rw [decrypt_encrypt]

/-! ## Block-list surgery for the tampering claims -/

/-- The block list with the whole blocks at positions `i < j` swapped
(the byte-level swap of the two 544-byte regions). -/
def swapBlocks (bs : List (List Nat)) (i j : Nat) : List (List Nat) :=
  bs.take i ++ [bs.getD j []] ++ (bs.drop (i + 1)).take (j - i - 1)
    ++ [bs.getD i []] ++ bs.drop (j + 1)

/-- The block list with the whole block at position `k` replaced by `b`
(the byte-level splice of a foreign 544-byte block). -/
def spliceBlock (bs : List (List Nat)) (k : Nat) (b : List Nat) :
    List (List Nat) :=
  bs.take k ++ [b] ++ bs.drop (k + 1)

lemma blockSeq_length (k s : List Nat) :
    ∀ (ps : List (List Nat)) (c0 : Nat),
      (blockSeq k s c0 ps).length = ps.length := by
  intro ps
  induction ps with
  | nil => intro c0; rfl
  | cons p ps ih =>
    intro c0
    rw [blockSeq_cons, List.length_cons, List.length_cons, ih]

lemma blockSeq_take (k s : List Nat) :
    ∀ (ps : List (List Nat)) (c0 i : Nat),
      (blockSeq k s c0 ps).take i = blockSeq k s c0 (ps.take i) := by
  intro ps
  induction ps with
  | nil => intro c0 i; simp [blockSeq_nil]
  | cons p ps ih =>
    intro c0 i
    cases i with
    | zero => simp [blockSeq_nil]
    | succ i =>
      rw [blockSeq_cons, List.take_succ_cons, List.take_succ_cons,
        blockSeq_cons, ih]

lemma blockSeq_getD (k s : List Nat) :
    ∀ (ps : List (List Nat)) (c0 j : Nat), j < ps.length →
      (blockSeq k s c0 ps).getD j [] = mkBlock k s (c0 + j) (ps.getD j []) := by
  intro ps
  induction ps with
  | nil => intro c0 j hj; simp at hj
  | cons p ps ih =>
    intro c0 j hj
    cases j with
    | zero => simp [blockSeq_cons]
    | succ j =>
      rw [blockSeq_cons]
      simp only [List.getD_cons_succ]
      rw [ih (c0 + 1) j (by simpa using hj)]
      congr 1
      omega

lemma blockSeq_drop (k s : List Nat) :
    ∀ (ps : List (List Nat)) (c0 i : Nat),
      (blockSeq k s c0 ps).drop i = blockSeq k s (c0 + i) (ps.drop i) := by
  intro ps
  induction ps with
  | nil => intro c0 i; simp [blockSeq_nil]
  | cons p ps ih =>
    intro c0 i
    cases i with
    | zero => simp [blockSeq_cons]
    | succ i =>
      rw [blockSeq_cons, List.drop_succ_cons, List.drop_succ_cons, ih]
      congr 1
      omega

/-! ## Seek machinery (C5) -/

/-- `readCore` from a freshly decoded block when the request fits. -/
lemma readCore_small (data : List Nat) (ipos : Nat) (pass : List Nat)
    (m : List (List Nat × StreamState)) (last : Option (List Nat))
    (p : List Nat) (g len : Nat) (hle : len ≤ PAYLOAD_SIZE) :
    readCore (mkReader data ipos pass m last 0 p (PAYLOAD_SIZE * g)) len =
      (mkReader data ipos pass m last len p (PAYLOAD_SIZE * g + len),
        p.take len) := by
  dsimp only [readCore, mkReader]
  rw [Nat.sub_zero, Nat.min_eq_left hle, List.drop_zero, Nat.zero_add]

/-- `readCore` from a freshly decoded block when the request spills past
it: exactly the whole payload is handed out. -/
lemma readCore_ge (data : List Nat) (ipos : Nat) (pass : List Nat)
    (m : List (List Nat × StreamState)) (last : Option (List Nat))
    (p : List Nat) (g len : Nat) (hp : p.length = PAYLOAD_SIZE)
    (hge : PAYLOAD_SIZE ≤ len) :
    readCore (mkReader data ipos pass m last 0 p (PAYLOAD_SIZE * g)) len =
      (mkReader data ipos pass m last PAYLOAD_SIZE p
        (PAYLOAD_SIZE * (g + 1)), p) := by
  dsimp only [readCore, mkReader]
  rw [Nat.sub_zero, Nat.min_eq_right hge, List.drop_zero,
    List.take_of_length_le (le_of_eq hp)]
  rw [Nat.zero_add, Nat.mul_add, Nat.mul_one]

/-- `readCore` from mid-block cursor `o` when the request fits in the
block remainder. -/
lemma readCore_mid_small (data : List Nat) (ipos : Nat) (pass : List Nat)
    (m : List (List Nat × StreamState)) (last : Option (List Nat))
    (o : Nat) (pl : List Nat) (g len : Nat)
    (hle : len ≤ PAYLOAD_SIZE - o) :
    readCore (mkReader data ipos pass m last o pl (PAYLOAD_SIZE * g + o))
        len =
      (mkReader data ipos pass m last (o + len) pl
        (PAYLOAD_SIZE * g + o + len), (pl.drop o).take len) := by
  dsimp only [readCore, mkReader]
  rw [Nat.min_eq_left hle]

/-- `readCore` from mid-block cursor `o` when the request spills past
the block: the block's remainder is handed out. -/
lemma readCore_mid_ge (data : List Nat) (ipos : Nat) (pass : List Nat)
    (m : List (List Nat × StreamState)) (last : Option (List Nat))
    (o : Nat) (pl : List Nat) (g len : Nat)
    (hge : PAYLOAD_SIZE - o ≤ len) :
    readCore (mkReader data ipos pass m last o pl (PAYLOAD_SIZE * g + o))
        len =
      (mkReader data ipos pass m last (o + (PAYLOAD_SIZE - o)) pl
        (PAYLOAD_SIZE * g + o + (PAYLOAD_SIZE - o)),
        (pl.drop o).take (PAYLOAD_SIZE - o)) := by
  dsimp only [readCore, mkReader]
  rw [Nat.min_eq_right hge]

/-- Dropping `t` whole blocks from a sub-stream's ciphertext. -/
lemma blockSeq_flatten_drop (k s : List Nat) (hs : s.length = 10) :
    ∀ (t : Nat) (ps : List (List Nat)) (c0 : Nat),
      (∀ p ∈ ps, p.length = PAYLOAD_SIZE) →
      ((blockSeq k s c0 ps).flatten).drop (BLOCK_SIZE * t) =
        (blockSeq k s (c0 + t) (ps.drop t)).flatten := by
  intro t
  induction t with
  | zero =>
    intro ps c0 _
    simp
  | succ t ih =>
    intro ps c0 hps
    cases ps with
    | nil => simp [blockSeq_nil]
    | cons p rest =>
      rw [blockSeq_cons, List.flatten_cons]
      have hB : BLOCK_SIZE * (t + 1) = BLOCK_SIZE + BLOCK_SIZE * t := by
        ring
      rw [hB, ← List.drop_drop]
      rw [mkBlock_drop_block k s c0 p _ hs (hps p (by simp))]
      rw [ih rest (c0 + 1) (fun q hq => hps q (by simp [hq]))]
      rw [List.drop_succ_cons]
      have hc : c0 + 1 + t = c0 + (t + 1) := by omega
      rw [hc]

/-- Dropping `t` whole chunks and `o` further bytes from the chunk
list's concatenation. -/
lemma flatten_drop_chunks : ∀ (ps : List (List Nat)) (t o : Nat),
    (∀ p ∈ ps, p.length = PAYLOAD_SIZE) → t < ps.length →
    o ≤ PAYLOAD_SIZE →
    (ps.getD t []).drop o ++ ((ps.drop (t + 1)).flatten) =
      (ps.flatten).drop (PAYLOAD_SIZE * t + o) := by
  intro ps
  induction ps with
  | nil =>
    intro t o _ ht _
    simp at ht
  | cons p rest ih =>
    intro t o hps ht ho
    cases t with
    | zero =>
      rw [List.getD_cons_zero]
      rw [show (p :: rest).drop (0 + 1) = rest from rfl]
      rw [List.flatten_cons]
      rw [Nat.mul_zero, Nat.zero_add]
      rw [List.drop_append_of_le_length (by
        rw [hps p (by simp)]
        exact ho)]
    | succ t =>
      have hlen : p.length = PAYLOAD_SIZE := hps p (by simp)
      have harith : PAYLOAD_SIZE * (t + 1) + o =
          p.length + (PAYLOAD_SIZE * t + o) := by
        rw [hlen]
        ring
      rw [List.getD_cons_succ,
        show (p :: rest).drop (t + 1 + 1) = rest.drop (t + 1) from rfl,
        List.flatten_cons, harith, List.drop_append]
      exact ih t o (fun q hq => hps q (by simp [hq]))
        (by rw [List.length_cons] at ht; omega) ho

/-- `SeekFrom::Start` into a block that exists: the reader repositions
the source at the containing block, decodes it as the first block of a
fresh sub-stream, and parks the intra-block cursor at
`off % PAYLOAD_SIZE`. -/
lemma seekStart_spec (pass k s : List Nat) (ps : List (List Nat))
    (off : Nat) (hs : s.length = 10) (hk : k = genKey pass s)
    (hps : ∀ p ∈ ps, p.length = PAYLOAD_SIZE)
    (hcnt : ps.length ≤ U32_MOD)
    (ht : off / PAYLOAD_SIZE < ps.length) :
    seekStart (readerNew pass ((blockSeq k s 0 ps).flatten)) off =
      .ok (mkReader ((blockSeq k s 0 ps).flatten)
        (off / PAYLOAD_SIZE * BLOCK_SIZE + BLOCK_SIZE) pass
        [(s, mkStream (genKey pass s)
          (((off / PAYLOAD_SIZE : Nat) : Int) -
            ((off / PAYLOAD_SIZE : Nat) : Int)) none)]
        (some s) (off % PAYLOAD_SIZE)
        (ps.getD (off / PAYLOAD_SIZE) [])
        (PAYLOAD_SIZE * (off / PAYLOAD_SIZE) + off % PAYLOAD_SIZE),
      off) := by
  subst hk
  have hp : (ps.getD (off / PAYLOAD_SIZE) []).length = PAYLOAD_SIZE := by
    rw [List.getD_eq_getElem ps [] ht]
    exact hps _ (List.getElem_mem ht)
  have hrem : ((blockSeq (genKey pass s) s 0 ps).flatten).drop
      (off / PAYLOAD_SIZE * BLOCK_SIZE) =
      mkBlock (genKey pass s) s (off / PAYLOAD_SIZE)
        (ps.getD (off / PAYLOAD_SIZE) []) ++
      (blockSeq (genKey pass s) s (off / PAYLOAD_SIZE + 1)
        (ps.drop (off / PAYLOAD_SIZE + 1))).flatten := by
    rw [Nat.mul_comm]
    rw [blockSeq_flatten_drop (genKey pass s) s hs (off / PAYLOAD_SIZE)
      ps 0 hps]
    rw [List.drop_eq_getElem_cons ht]
    rw [blockSeq_cons]
    rw [List.flatten_cons]
    rw [Nat.zero_add]
    rw [← List.getD_eq_getElem ps [] ht]
  have hchunk := read_chunk_fresh_none
    ((blockSeq (genKey pass s) s 0 ps).flatten)
    (off / PAYLOAD_SIZE * BLOCK_SIZE) pass (genKey pass s) s []
    PAYLOAD_SIZE (List.replicate PAYLOAD_SIZE 0) (off / PAYLOAD_SIZE)
    (off / PAYLOAD_SIZE) (ps.getD (off / PAYLOAD_SIZE) [])
    ((blockSeq (genKey pass s) s (off / PAYLOAD_SIZE + 1)
      (ps.drop (off / PAYLOAD_SIZE + 1))).flatten)
    hs hp (lt_of_lt_of_le ht hcnt) hrem rfl rfl (le_refl _)
  dsimp only [mkReader, mkStream] at hchunk
  dsimp only [seekStart, readerNew]
  rw [Nat.mul_comm (off / PAYLOAD_SIZE) PAYLOAD_SIZE]
  rw [hchunk]
  dsimp only []
  rfl

/-- `SeekFrom::Start` past the last block: the source is at end of
stream, the cursor stays parked. -/
lemma seekStart_end (pass data : List Nat) (off : Nat)
    (hrem : data.drop (off / PAYLOAD_SIZE * BLOCK_SIZE) = []) :
    seekStart (readerNew pass data) off =
      .ok (mkReader data (off / PAYLOAD_SIZE * BLOCK_SIZE) pass [] none
        PAYLOAD_SIZE (List.replicate PAYLOAD_SIZE 0)
        (off / PAYLOAD_SIZE * PAYLOAD_SIZE), off) := by
  have hch := read_chunk_eof data (off / PAYLOAD_SIZE * BLOCK_SIZE) pass
    [] none PAYLOAD_SIZE (List.replicate PAYLOAD_SIZE 0)
    (off / PAYLOAD_SIZE * PAYLOAD_SIZE) hrem
  dsimp only [mkReader] at hch
  dsimp only [seekStart, readerNew]
  rw [hch]
  dsimp only []
  rfl

/-- `read_exact` from a parked cursor over a run of same-stream blocks:
the loop decodes block after block and returns the first `len` bytes of
the payload run. -/
lemma read_exact_parked (ps : List (List Nat)) : ∀ (fuel len : Nat)
    (data : List Nat) (ipos : Nat) (pass k s : List Nat)
    (m : List (List Nat × StreamState)) (st : StreamState)
    (pl : List Nat) (g c0 : Nat) (acc rest : List Nat),
    (∀ p ∈ ps, p.length = PAYLOAD_SIZE) → s.length = 10 →
    c0 + ps.length ≤ U32_MOD →
    len ≠ 0 → len ≤ PAYLOAD_SIZE * ps.length → len < fuel →
    data.drop ipos = (blockSeq k s c0 ps).flatten ++ rest →
    m.lookup s = some st → st.key = k → st.next_stream_block = none →
    st.first_stream_chunk + (c0 : Int) = (g : Int) →
    ∃ r', read_exact fuel
        (mkReader data ipos pass m (some s) PAYLOAD_SIZE pl
          (PAYLOAD_SIZE * g)) len acc =
      .ok (r', acc ++ (ps.flatten).take len) := by
  induction ps with
  | nil =>
    intro fuel len data ipos pass k s m st pl g c0 acc rest _ _ _ h0 hle _
      _ _ _ _ _
    exfalso
    rw [List.length_nil, Nat.mul_zero, Nat.le_zero] at hle
    exact h0 hle
  | cons p ps ih =>
    intro fuel len data ipos pass k s m st pl g c0 acc rest hps hs hcnt h0
      hle hfuel hrem hlk hkey hst hfirst
    have hp : p.length = PAYLOAD_SIZE := hps p (by simp)
    have hrem1 : data.drop ipos = mkBlock k s c0 p ++
        ((blockSeq k s (c0 + 1) ps).flatten ++ rest) := by
      rw [hrem, blockSeq_cons, List.flatten_cons, List.append_assoc]
    have hc0 : c0 < U32_MOD := by
      rw [List.length_cons] at hcnt
      omega
    have hchunk := read_chunk_current data ipos pass k s m PAYLOAD_SIZE pl
      g c0 st p ((blockSeq k s (c0 + 1) ps).flatten ++ rest) hs hp hc0
      hrem1 hlk hkey hst hfirst
    cases fuel with
    | zero => omega
    | succ fuel =>
      have hpos : (mkReader data ipos pass m (some s) PAYLOAD_SIZE pl
          (PAYLOAD_SIZE * g)).current_chunk_position = PAYLOAD_SIZE := rfl
      rw [read_exact, if_neg h0, read, if_pos hpos, hchunk]
      dsimp only []
      by_cases hcase : len ≤ PAYLOAD_SIZE
      · rw [readCore_small data (ipos + BLOCK_SIZE) pass m (some s) p g
          len hcase]
        dsimp only []
        have hblen : (p.take len).length = len := by
          rw [List.length_take, hp]
          omega
        rw [if_neg (by
          intro hcon
          rw [hcon] at hblen
          simp only [List.length_nil] at hblen
          exact h0 hblen.symm)]
        rw [hblen, Nat.sub_self]
        cases fuel with
        | zero => exact absurd (by omega : len = 0) h0
        | succ fuel =>
          rw [read_exact, if_pos rfl]
          refine ⟨mkReader data (ipos + BLOCK_SIZE) pass m (some s) len p
            (PAYLOAD_SIZE * g + len), ?_⟩
          rw [List.flatten_cons,
            List.take_append_of_le_length (by rw [hp]; exact hcase)]
      · push_neg at hcase
        rw [readCore_ge data (ipos + BLOCK_SIZE) pass m (some s) p g len
          hp (le_of_lt hcase)]
        dsimp only []
        rw [if_neg (by
          intro hcon
          have hl := congrArg List.length hcon
          rw [hp, List.length_nil] at hl
          rw [show PAYLOAD_SIZE = 512 from rfl] at hl
          exact absurd hl (by norm_num))]
        have hrem2 : data.drop (ipos + BLOCK_SIZE) =
            (blockSeq k s (c0 + 1) ps).flatten ++ rest := by
          rw [← List.drop_drop, hrem1,
            mkBlock_drop_block k s c0 p _ hs hp]
        obtain ⟨r', hr'⟩ := ih fuel (len - p.length) data
          (ipos + BLOCK_SIZE) pass k s m st p (g + 1) (c0 + 1) (acc ++ p)
          rest (fun q hq => hps q (by simp [hq])) hs
          (by rw [List.length_cons] at hcnt; omega)
          (by rw [hp]; simp only [PAYLOAD_SIZE] at *; omega)
          (by have hp5 : p.length = 512 := hp
              simp only [List.length_cons, PAYLOAD_SIZE] at hle ⊢
              omega)
          (by rw [hp]; simp only [PAYLOAD_SIZE] at *; omega)
          hrem2 hlk hkey hst
          (by push_cast at hfirst ⊢; omega)
        refine ⟨r', ?_⟩
        rw [hr']
        have hsplit : len = p.length + (len - p.length) := by
          rw [hp]
          simp only [PAYLOAD_SIZE] at *
          omega
        rw [List.flatten_cons]
        conv_rhs => rw [hsplit]
        rw [List.take_append]
        rw [List.append_assoc]

/-- `read_exact` starting from a mid-block cursor `o`: the remainder of
the current payload is handed out first, then whole following blocks of
the same sub-stream. -/
lemma read_exact_mid (ps : List (List Nat)) (fuel len : Nat)
    (data : List Nat) (ipos : Nat) (pass k s : List Nat)
    (m : List (List Nat × StreamState)) (st : StreamState)
    (o : Nat) (pl : List Nat) (g c0 : Nat) (acc rest : List Nat)
    (hps : ∀ p ∈ ps, p.length = PAYLOAD_SIZE) (hs : s.length = 10)
    (hcnt : c0 + ps.length ≤ U32_MOD)
    (hpl : pl.length = PAYLOAD_SIZE) (ho : o < PAYLOAD_SIZE)
    (h0 : len ≠ 0)
    (hle : len ≤ (PAYLOAD_SIZE - o) + PAYLOAD_SIZE * ps.length)
    (hfuel : len < fuel)
    (hrem : data.drop ipos = (blockSeq k s c0 ps).flatten ++ rest)
    (hlk : m.lookup s = some st) (hkey : st.key = k)
    (hst : st.next_stream_block = none)
    (hfirst : st.first_stream_chunk + (c0 : Int) = ((g + 1 : Nat) : Int)) :
    ∃ r', read_exact fuel
        (mkReader data ipos pass m (some s) o pl (PAYLOAD_SIZE * g + o))
        len acc =
      .ok (r', acc ++ ((pl.drop o) ++ ps.flatten).take len) := by
  cases fuel with
  | zero => omega
  | succ fuel =>
    rw [read_exact, if_neg h0, read,
      if_neg (by dsimp only [mkReader]; omega)]
    dsimp only []
    by_cases hcase : len ≤ PAYLOAD_SIZE - o
    · rw [readCore_mid_small data ipos pass m (some s) o pl g len hcase]
      dsimp only []
      have hblen : ((pl.drop o).take len).length = len := by
        rw [List.length_take, List.length_drop, hpl]
        omega
      rw [if_neg (by
        intro hcon
        rw [hcon] at hblen
        simp only [List.length_nil] at hblen
        exact h0 hblen.symm)]
      rw [hblen, Nat.sub_self]
      cases fuel with
      | zero => exact absurd (by omega : len = 0) h0
      | succ fuel =>
        rw [read_exact, if_pos rfl]
        refine ⟨mkReader data ipos pass m (some s) (o + len) pl
          (PAYLOAD_SIZE * g + o + len), ?_⟩
        rw [List.take_append_of_le_length (by
          rw [List.length_drop, hpl]
          omega)]
    · push_neg at hcase
      rw [readCore_mid_ge data ipos pass m (some s) o pl g len
        (le_of_lt hcase)]
      dsimp only []
      have hblen : ((pl.drop o).take (PAYLOAD_SIZE - o)).length =
          PAYLOAD_SIZE - o := by
        rw [List.length_take, List.length_drop, hpl]
        omega
      rw [if_neg (by
        intro hcon
        rw [hcon] at hblen
        simp only [List.length_nil] at hblen
        omega)]
      rw [hblen]
      rw [show o + (PAYLOAD_SIZE - o) = PAYLOAD_SIZE from by omega]
      rw [show PAYLOAD_SIZE * g + o + (PAYLOAD_SIZE - o) =
        PAYLOAD_SIZE * (g + 1) from by
          simp only [PAYLOAD_SIZE] at *
          omega]
      obtain ⟨r', hr'⟩ := read_exact_parked ps fuel
        (len - (PAYLOAD_SIZE - o)) data ipos pass k s m st pl (g + 1) c0
        (acc ++ (pl.drop o).take (PAYLOAD_SIZE - o)) rest hps hs hcnt
        (by omega)
        (by simp only [PAYLOAD_SIZE] at *; omega)
        (by omega)
        hrem hlk hkey hst hfirst
      refine ⟨r', ?_⟩
      rw [hr']
      rw [List.take_of_length_le (le_of_eq (by
        rw [List.length_drop, hpl]))]
      have hsplit : len = (pl.drop o).length + (len - (PAYLOAD_SIZE - o))
          := by
        rw [List.length_drop, hpl]
        omega
      conv_rhs => rw [hsplit]
      rw [List.take_append]
      rw [List.append_assoc]

/-- A zero-byte `read_exact` returns immediately. -/
lemma read_exact_zero (fuel : Nat) (r : ReaderState) (acc : List Nat) :
    read_exact (fuel + 1) r 0 acc = .ok (r, acc) := by
  rw [read_exact]
  rw [if_pos rfl]

/-! ## Claims -/

/-- C2: swapping any two whole 544-byte blocks at positions `i < j` of a
single-session ciphertext (at least two blocks) makes whole-stream
decryption under the same passphrase fail with InvalidBlockCounter or
KeyError. (It fails with InvalidBlockCounter: the displaced block's
counter disagrees with its new position.) -/
theorem C2_reorder_rejected (pass salt B : List Nat) (i j : Nat)
    (hs : salt.length = 10) (hij : i < j)
    (hjn : j < (padChunks B).length)
    (hn : (padChunks B).length ≤ U32_MOD - 1) :
    decrypt_all pass
        ((swapBlocks (blockSeq (genKey pass salt) salt 0 (padChunks B))
          i j).flatten) = .error .invalidBlockCounter ∨
    decrypt_all pass
        ((swapBlocks (blockSeq (genKey pass salt) salt 0 (padChunks B))
          i j).flatten) = .error .keyError := by
  left
  set k := genKey pass salt with hk
  set ps := padChunks B with hps
  have hmem := padChunks_mem_length B
  rw [← hps] at hmem
  have hjlt' : j < ps.length := by omega
  have hpj : (ps.getD j []).length = PAYLOAD_SIZE := by
    rw [List.getD_eq_getElem ps [] hjlt']
    exact hmem _ (List.getElem_mem hjlt')
  obtain ⟨R, hflat⟩ : ∃ R, (swapBlocks (blockSeq k salt 0 ps) i j).flatten =
      (blockSeq k salt 0 (ps.take i)).flatten ++
        (mkBlock k salt j (ps.getD j []) ++ R) := by
    refine ⟨(((blockSeq k salt 0 ps).drop (i + 1)).take (j - i - 1)).flatten
      ++ ((blockSeq k salt 0 ps).getD i []
        ++ ((blockSeq k salt 0 ps).drop (j + 1)).flatten), ?_⟩
    rw [swapBlocks]
    rw [blockSeq_take k salt ps 0 i]
    rw [blockSeq_getD k salt ps 0 j (by omega), Nat.zero_add]
    simp [List.flatten_append]
  have hjlt : j < U32_MOD := by
    have hU : (1 : Nat) ≤ U32_MOD := by norm_num [U32_MOD]
    omega
  rw [decrypt_all]
  have hrnew : readerNew pass ((swapBlocks (blockSeq k salt 0 ps) i j).flatten) =
      mkReader ((swapBlocks (blockSeq k salt 0 ps) i j).flatten) 0 pass []
        none PAYLOAD_SIZE (List.replicate PAYLOAD_SIZE 0) 0 := rfl
  rw [hrnew]
  rcases Nat.eq_zero_or_pos i with hi0 | hipos
  · -- swapped block lands at position 0 with counter j > 0
    subst hi0
    have hrem : ((swapBlocks (blockSeq k salt 0 ps) 0 j).flatten).drop 0 =
        mkBlock k salt j (ps.getD j []) ++ R := by
      rw [List.drop_zero, hflat, List.take_zero, blockSeq_nil]
      simp
    have hrc := read_chunk_fresh_neg
      ((swapBlocks (blockSeq k salt 0 ps) 0 j).flatten) 0 pass k salt []
      PAYLOAD_SIZE (List.replicate PAYLOAD_SIZE 0) 0 j (ps.getD j []) R hs
      hpj hjlt hrem rfl (by omega)
    simp only [Nat.mul_zero] at hrc
    have hF : ((swapBlocks (blockSeq k salt 0 ps) 0 j).flatten).length + 2 =
        (((swapBlocks (blockSeq k salt 0 ps) 0 j).flatten).length + 1) + 1 := by
      omega
    rw [hF]
    exact read_to_end_err _ _ [] _ rfl hrc
  · -- the prefix decodes, the swapped block fails at position i
    have hti : (ps.take i).length = i := by
      rw [List.length_take]
      omega
    have htne : ps.take i ≠ [] := by
      intro hcon
      rw [hcon] at hti
      simp at hti
      omega
    have hrem0 : ((swapBlocks (blockSeq k salt 0 ps) i j).flatten).drop 0 =
        (blockSeq k salt 0 (ps.take i)).flatten ++
          (mkBlock k salt j (ps.getD j []) ++ R) := by
      rw [List.drop_zero, hflat]
    obtain ⟨st', pl', hkey', hfirst', hnext', hread⟩ :=
      read_to_end_stream_none (ps.take i)
        (((swapBlocks (blockSeq k salt 0 ps) i j).flatten).length + 2
          - (ps.take i).length)
        ((swapBlocks (blockSeq k salt 0 ps) i j).flatten) 0 pass k salt []
        (List.replicate PAYLOAD_SIZE 0) 0 []
        (mkBlock k salt j (ps.getD j []) ++ R) htne
        (fun p hp => hmem p (List.mem_of_mem_take hp)) hs
        (by rw [hti]; omega) hrem0 hk.symm rfl
    simp only [Nat.mul_zero, Nat.zero_add, Nat.add_zero, List.nil_append]
      at hread
    have hlenA : ((blockSeq k salt 0 (ps.take i)).flatten).length =
        BLOCK_SIZE * i := by
      rw [blockSeq_join_length k salt hs (ps.take i) 0
        (fun p hp => hmem p (List.mem_of_mem_take hp)), hti]
    have hremi : ((swapBlocks (blockSeq k salt 0 ps) i j).flatten).drop
        (BLOCK_SIZE * (ps.take i).length) =
        mkBlock k salt j (ps.getD j []) ++ R := by
      rw [hti, hflat]
      exact List.drop_left' (by rw [hlenA])
    have hbad := read_chunk_current_bad
      ((swapBlocks (blockSeq k salt 0 ps) i j).flatten)
      (BLOCK_SIZE * (ps.take i).length)
      pass k salt [(salt, st')] PAYLOAD_SIZE pl' (ps.take i).length j st'
      (ps.getD j []) R hs hpj hjlt hremi
      (by rw [lookup_cons_streams]; simp) hnext'
      (by
        rw [hfirst', hti]
        intro hcon
        have hji : (j : Int) = (i : Nat) := by omega
        have : j = i := by exact_mod_cast hji
        omega)
    have hdlen : BLOCK_SIZE * i + BLOCK_SIZE ≤
        ((swapBlocks (blockSeq k salt 0 ps) i j).flatten).length := by
      have h1 : ((swapBlocks (blockSeq k salt 0 ps) i j).flatten).length =
          BLOCK_SIZE * i +
          ((mkBlock k salt j (ps.getD j [])).length + R.length) := by
        rw [hflat, List.length_append, List.length_append, hlenA]
      rw [h1, mkBlock_length k salt j (ps.getD j []) hs hpj]
      omega
    have hB544 : BLOCK_SIZE = 544 := rfl
    rw [hB544] at hdlen
    have hF2 : ((swapBlocks (blockSeq k salt 0 ps) i j).flatten).length + 2
        - (ps.take i).length =
        (((swapBlocks (blockSeq k salt 0 ps) i j).flatten).length + 1
          - (ps.take i).length) + 1 := by
      rw [hti]
      omega
    rw [hF2] at hread
    have hF : ((swapBlocks (blockSeq k salt 0 ps) i j).flatten).length + 2 =
        (ps.take i).length +
        ((((swapBlocks (blockSeq k salt 0 ps) i j).flatten).length + 1
          - (ps.take i).length) + 1) := by
      rw [hti]
      omega
    rw [hF, hread]
    exact read_to_end_err _ _ _ _ rfl hbad

/-- C2 witness: a two-block plaintext with blocks 0 and 1 swapped is
rejected. -/
theorem C2_reorder_rejected_witness :
    (List.range 10).length = 10 ∧ 0 < 1 ∧
    1 < (padChunks (List.replicate 1024 7)).length ∧
    (padChunks (List.replicate 1024 7)).length ≤ U32_MOD - 1 ∧
    (decrypt_all [116, 101, 115, 116]
        ((swapBlocks (blockSeq
          (genKey [116, 101, 115, 116] (List.range 10)) (List.range 10) 0
          (padChunks (List.replicate 1024 7))) 0 1).flatten) =
      .error .invalidBlockCounter ∨
    decrypt_all [116, 101, 115, 116]
        ((swapBlocks (blockSeq
          (genKey [116, 101, 115, 116] (List.range 10)) (List.range 10) 0
          (padChunks (List.replicate 1024 7))) 0 1).flatten) =
      .error .keyError) := by
  have hlen : (padChunks (List.replicate 1024 7)).length = 2 := by
    rw [padChunks_length, List.length_replicate]
    norm_num [PAYLOAD_SIZE]
  refine ⟨rfl, by omega, by omega, by rw [hlen]; norm_num [U32_MOD], ?_⟩
  exact C2_reorder_rejected [116, 101, 115, 116] (List.range 10)
    (List.replicate 1024 7) 0 1 rfl (by omega) (by omega)
    (by rw [hlen]; norm_num [U32_MOD])

/-- A two-block ciphertext whose head block is block 0 of a foreign
sub-stream (fresh salt) and whose second block is block 1 of the original
sub-stream decrypts without error: the foreign block starts a new
sub-stream at position 0, and the original block then starts another
sub-stream with `first = 0` because its counter matches its position. -/
lemma splice_head_two (pass salt salt' q p1 : List Nat)
    (hs : salt.length = 10) (hs' : salt'.length = 10) (hne : salt' ≠ salt)
    (hq : q.length = PAYLOAD_SIZE) (hp1 : p1.length = PAYLOAD_SIZE) :
    decrypt_all pass (mkBlock (genKey pass salt') salt' 0 q ++
      mkBlock (genKey pass salt) salt 1 p1) = .ok (q ++ p1) := by
  have hdl : (mkBlock (genKey pass salt') salt' 0 q ++
      mkBlock (genKey pass salt) salt 1 p1).length = 1088 := by
    rw [List.length_append, mkBlock_length _ salt' 0 q hs' hq,
      mkBlock_length _ salt 1 p1 hs hp1]
    rfl
  have hchunk1 := read_chunk_fresh_none
    (mkBlock (genKey pass salt') salt' 0 q ++
      mkBlock (genKey pass salt) salt 1 p1) 0 pass (genKey pass salt')
    salt' [] PAYLOAD_SIZE (List.replicate PAYLOAD_SIZE 0) 0 0 q
    (mkBlock (genKey pass salt) salt 1 p1) hs' hq
    (by norm_num [U32_MOD]) (by rw [List.drop_zero]) rfl rfl
    (Nat.le_refl 0)
  have hstep1 := read_to_end_step 1089 _ _ (0 + BLOCK_SIZE) pass _
    (some salt') q 0 [] rfl hq hchunk1
  have hrem2 : (mkBlock (genKey pass salt') salt' 0 q ++
      mkBlock (genKey pass salt) salt 1 p1).drop (0 + BLOCK_SIZE) =
      mkBlock (genKey pass salt) salt 1 p1 ++ [] := by
    rw [List.append_nil, Nat.zero_add]
    exact mkBlock_drop_block _ salt' 0 q _ hs' hq
  have hchunk2 := read_chunk_fresh_prev
    (mkBlock (genKey pass salt') salt' 0 q ++
      mkBlock (genKey pass salt) salt 1 p1) (0 + BLOCK_SIZE) pass
    (genKey pass salt) salt salt'
    [(salt', mkStream (genKey pass salt')
      (((0 : Nat) : Int) - ((0 : Nat) : Int)) none)]
    PAYLOAD_SIZE q (0 + 1) 1
    (mkStream (genKey pass salt') (((0 : Nat) : Int) - ((0 : Nat) : Int))
      none) p1 [] hs hp1 (by norm_num [U32_MOD]) hrem2 hne
    (lookup_pair_eq salt' _ [])
    (by rw [lookup_pair_ne salt salt' _ [] (fun h => hne h.symm)]; rfl)
    rfl (by omega)
  have hstep2 := read_to_end_step 1088 _ _ (0 + BLOCK_SIZE + BLOCK_SIZE) pass
    _ (some salt) p1 (0 + 1) ([] ++ q) rfl hp1 hchunk2
  have heof := read_to_end_eof 1087
    (mkBlock (genKey pass salt') salt' 0 q ++
      mkBlock (genKey pass salt) salt 1 p1)
    (0 + BLOCK_SIZE + BLOCK_SIZE) pass
    ((salt, mkStream (genKey pass salt)
        (((0 + 1 : Nat) : Int) - ((1 : Nat) : Int)) none)
      :: updateNext [(salt', mkStream (genKey pass salt')
          (((0 : Nat) : Int) - ((0 : Nat) : Int)) none)]
        salt' ((0 + 1 : Nat) : Int))
    (some salt) p1 (PAYLOAD_SIZE * (0 + 1 + 1)) ([] ++ q ++ p1)
    (List.drop_eq_nil_of_le (by rw [hdl]; norm_num [BLOCK_SIZE,
      HEADER_SIZE, PAYLOAD_SIZE, POLY_TAG_SIZE]))
  rw [decrypt_all]
  have hrnew : readerNew pass (mkBlock (genKey pass salt') salt' 0 q ++
      mkBlock (genKey pass salt) salt 1 p1) =
      mkReader (mkBlock (genKey pass salt') salt' 0 q ++
        mkBlock (genKey pass salt) salt 1 p1) 0 pass []
        none PAYLOAD_SIZE (List.replicate PAYLOAD_SIZE 0) 0 := rfl
  rw [hrnew, hdl]
  rw [show (1088 : Nat) + 2 = 1089 + 1 from by norm_num]
  simp only [Nat.mul_zero] at hstep1
  rw [hstep1]
  rw [show (1089 : Nat) = 1088 + 1 from by norm_num]
  rw [hstep2]
  rw [show (1088 : Nat) = 1087 + 1 from by norm_num]
  rw [heof]
  simp

/-- C3 (amended): replacing an interior block `1 ≤ t ≤ n - 2` of an
`n`-block single-stream ciphertext with block 0 of an independent fresh
encryption under the same passphrase (fresh salt `salt'`, first padded
chunk `q`) makes whole-stream decryption fail with InvalidBlockCounter:
the spliced block itself decrypts, but it retires the original sub-stream
at boundary `t`, so the original stream's next block is rejected. At
`t = 0` or `t = n - 1` decryption succeeds instead - see the
counterexample. -/
theorem C3_splice_rejected_amended (pass salt salt' B : List Nat)
    (q : List Nat) (t : Nat) (hs : salt.length = 10)
    (hs' : salt'.length = 10) (hne : salt' ≠ salt)
    (hq : q.length = PAYLOAD_SIZE)
    (ht1 : 1 ≤ t) (ht2 : t + 2 ≤ (padChunks B).length)
    (hn : (padChunks B).length ≤ U32_MOD - 1) :
    decrypt_all pass
        ((spliceBlock (blockSeq (genKey pass salt) salt 0 (padChunks B)) t
          (mkBlock (genKey pass salt') salt' 0 q)).flatten) =
      .error .invalidBlockCounter := by
  set k := genKey pass salt with hk
  set k' := genKey pass salt' with hk'
  set ps := padChunks B with hps
  have hmem := padChunks_mem_length B
  rw [← hps] at hmem
  have htn : t + 1 < ps.length := by omega
  have hpt : (ps.getD (t + 1) []).length = PAYLOAD_SIZE := by
    rw [List.getD_eq_getElem ps [] htn]
    exact hmem _ (List.getElem_mem htn)
  -- the spliced stream: prefix, foreign block, successor block, tail
  obtain ⟨R, hflat⟩ : ∃ R,
      (spliceBlock (blockSeq k salt 0 ps) t
          (mkBlock k' salt' 0 q)).flatten =
        (blockSeq k salt 0 (ps.take t)).flatten ++
          (mkBlock k' salt' 0 q ++
            (mkBlock k salt (t + 1) (ps.getD (t + 1) []) ++ R)) := by
    refine ⟨(blockSeq k salt (t + 2) (ps.drop (t + 2))).flatten, ?_⟩
    rw [spliceBlock]
    rw [blockSeq_take k salt ps 0 t]
    have hdrop : (blockSeq k salt 0 ps).drop (t + 1) =
        mkBlock k salt (t + 1) (ps.getD (t + 1) []) ::
          blockSeq k salt (t + 2) (ps.drop (t + 2)) := by
      rw [blockSeq_drop k salt ps 0 (t + 1), Nat.zero_add]
      have hcons : ps.drop (t + 1) =
          ps.getD (t + 1) [] :: ps.drop (t + 2) := by
        rw [List.getD_eq_getElem ps [] htn]
        rw [List.drop_eq_getElem_cons htn]
      rw [hcons, blockSeq_cons]
    rw [hdrop]
    simp [List.flatten_append]
  have htlt : t + 1 < U32_MOD := by
    have hU : (1 : Nat) ≤ U32_MOD := by norm_num [U32_MOD]
    omega
  rw [decrypt_all]
  have hrnew : readerNew pass
      ((spliceBlock (blockSeq k salt 0 ps) t
        (mkBlock k' salt' 0 q)).flatten) =
      mkReader ((spliceBlock (blockSeq k salt 0 ps) t
        (mkBlock k' salt' 0 q)).flatten) 0 pass []
        none PAYLOAD_SIZE (List.replicate PAYLOAD_SIZE 0) 0 := rfl
  rw [hrnew]
  have hti : (ps.take t).length = t := by
    rw [List.length_take]
    omega
  have htne : ps.take t ≠ [] := by
    intro hcon
    rw [hcon] at hti
    simp at hti
    omega
  have hrem0 : ((spliceBlock (blockSeq k salt 0 ps) t
      (mkBlock k' salt' 0 q)).flatten).drop 0 =
      (blockSeq k salt 0 (ps.take t)).flatten ++
        (mkBlock k' salt' 0 q ++
          (mkBlock k salt (t + 1) (ps.getD (t + 1) []) ++ R)) := by
    rw [List.drop_zero, hflat]
  -- 1: the original prefix decodes
  obtain ⟨st', pl', hkey', hfirst', hnext', hread⟩ :=
    read_to_end_stream_none (ps.take t)
      (((spliceBlock (blockSeq k salt 0 ps) t
        (mkBlock k' salt' 0 q)).flatten).length + 2 - (ps.take t).length)
      ((spliceBlock (blockSeq k salt 0 ps) t
        (mkBlock k' salt' 0 q)).flatten) 0 pass k salt []
      (List.replicate PAYLOAD_SIZE 0) 0 []
      (mkBlock k' salt' 0 q ++
        (mkBlock k salt (t + 1) (ps.getD (t + 1) []) ++ R)) htne
      (fun p hp => hmem p (List.mem_of_mem_take hp)) hs
      (by rw [hti]; omega) hrem0 hk.symm rfl
  simp only [Nat.mul_zero, Nat.zero_add, Nat.add_zero, List.nil_append]
    at hread
  have hlenA : ((blockSeq k salt 0 (ps.take t)).flatten).length =
      BLOCK_SIZE * t := by
    rw [blockSeq_join_length k salt hs (ps.take t) 0
      (fun p hp => hmem p (List.mem_of_mem_take hp)), hti]
  have hremt : ((spliceBlock (blockSeq k salt 0 ps) t
      (mkBlock k' salt' 0 q)).flatten).drop (BLOCK_SIZE * (ps.take t).length)
      = mkBlock k' salt' 0 q ++
        (mkBlock k salt (t + 1) (ps.getD (t + 1) []) ++ R) := by
    rw [hti, hflat]
    exact List.drop_left' (by rw [hlenA])
  -- 2: the spliced foreign block decodes, retiring the original stream
  have hchunk2 := read_chunk_fresh_prev
    ((spliceBlock (blockSeq k salt 0 ps) t
      (mkBlock k' salt' 0 q)).flatten)
    (BLOCK_SIZE * (ps.take t).length) pass k' salt' salt [(salt, st')]
    PAYLOAD_SIZE pl' (ps.take t).length 0 st' q
    (mkBlock k salt (t + 1) (ps.getD (t + 1) []) ++ R) hs' hq
    (by norm_num [U32_MOD]) hremt hne.symm
    (by rw [lookup_cons_streams]; simp)
    (by rw [lookup_pair_ne salt' salt st' [] hne]; rfl)
    hk'.symm (Nat.zero_le _)
  -- 3: the original stream's next block is rejected
  have hremt1 : ((spliceBlock (blockSeq k salt 0 ps) t
      (mkBlock k' salt' 0 q)).flatten).drop
      (BLOCK_SIZE * (ps.take t).length + BLOCK_SIZE) =
      mkBlock k salt (t + 1) (ps.getD (t + 1) []) ++ R := by
    have hd : ((spliceBlock (blockSeq k salt 0 ps) t
        (mkBlock k' salt' 0 q)).flatten).drop
        (BLOCK_SIZE * (ps.take t).length + BLOCK_SIZE) =
        (((spliceBlock (blockSeq k salt 0 ps) t
          (mkBlock k' salt' 0 q)).flatten).drop
          (BLOCK_SIZE * (ps.take t).length)).drop BLOCK_SIZE := by
      rw [List.drop_drop]
      try (congr 1; omega)
    rw [hd, hremt]
    exact mkBlock_drop_block k' salt' 0 q _ hs' hq
  have hbad := read_chunk_retired
    ((spliceBlock (blockSeq k salt 0 ps) t
      (mkBlock k' salt' 0 q)).flatten)
    (BLOCK_SIZE * (ps.take t).length + BLOCK_SIZE) pass k salt salt'
    ((salt', mkStream (genKey pass salt')
        (((ps.take t).length : Int) - ((0 : Nat) : Int)) none)
      :: updateNext [(salt, st')] salt ((ps.take t).length : Int))
    PAYLOAD_SIZE q ((ps.take t).length + 1) (t + 1)
    { st' with next_stream_block := some ((ps.take t).length : Int) }
    (mkStream (genKey pass salt')
      (((ps.take t).length : Int) - ((0 : Nat) : Int)) none)
    (ps.getD (t + 1) []) R hs hpt htlt hremt1 hne
    (by rw [lookup_cons_streams]; simp)
    (by
      rw [lookup_pair_ne salt salt' _ _ (fun h => hne h.symm)]
      exact lookup_updateNext_self [(salt, st')] salt _ st'
        (by rw [lookup_cons_streams]; simp))
    ((ps.take t).length : Int) rfl (by push_cast; omega)
  -- assemble the loop
  have hstep2 := read_to_end_step
    ((((spliceBlock (blockSeq k salt 0 ps) t
      (mkBlock k' salt' 0 q)).flatten).length - (ps.take t).length) + 1)
    _ ((spliceBlock (blockSeq k salt 0 ps) t
      (mkBlock k' salt' 0 q)).flatten)
    (BLOCK_SIZE * (ps.take t).length + BLOCK_SIZE) pass
    ((salt', mkStream (genKey pass salt')
        (((ps.take t).length : Int) - ((0 : Nat) : Int)) none)
      :: updateNext [(salt, st')] salt ((ps.take t).length : Int))
    (some salt') q (ps.take t).length ((ps.take t).flatten) rfl hq hchunk2
  have hdlen : BLOCK_SIZE * t + BLOCK_SIZE + BLOCK_SIZE ≤
      ((spliceBlock (blockSeq k salt 0 ps) t
        (mkBlock k' salt' 0 q)).flatten).length := by
    have h1 : ((spliceBlock (blockSeq k salt 0 ps) t
        (mkBlock k' salt' 0 q)).flatten).length =
        BLOCK_SIZE * t + ((mkBlock k' salt' 0 q).length +
          ((mkBlock k salt (t + 1) (ps.getD (t + 1) [])).length + R.length)) := by
      rw [hflat, List.length_append, List.length_append, List.length_append,
        hlenA]
    rw [h1, mkBlock_length k' salt' 0 q hs' hq,
      mkBlock_length k salt (t + 1) (ps.getD (t + 1) []) hs hpt]
    omega
  have hB544 : BLOCK_SIZE = 544 := rfl
  rw [hB544] at hdlen
  have hF2 : ((spliceBlock (blockSeq k salt 0 ps) t
      (mkBlock k' salt' 0 q)).flatten).length + 2 - (ps.take t).length =
      (((((spliceBlock (blockSeq k salt 0 ps) t
        (mkBlock k' salt' 0 q)).flatten).length - (ps.take t).length)
        + 1) + 1) := by
    rw [hti]
    omega
  rw [hF2] at hread
  have hF : ((spliceBlock (blockSeq k salt 0 ps) t
      (mkBlock k' salt' 0 q)).flatten).length + 2 =
      (ps.take t).length +
      (((((spliceBlock (blockSeq k salt 0 ps) t
        (mkBlock k' salt' 0 q)).flatten).length - (ps.take t).length)
        + 1) + 1) := by
    rw [hti]
    omega
  rw [hF, hread, hstep2]
  exact read_to_end_err _ _ _ _ rfl hbad

lemma replicate_ne_nil' (n x : Nat) (h : 0 < n) :
    List.replicate n x ≠ [] := by
  intro hc
  have hl := congrArg List.length hc
  rw [List.length_replicate] at hl
  simp only [List.length_nil] at hl
  omega

/-- C3 counterexample: the claim quantifies over *every* block index `k`,
but at `k = 0` the splice is accepted. Replacing block 0 of a two-block
ciphertext of `B = 1024 × 0x01` with block 0 of a fresh encryption of
`B' = 512 × 0x02` under the same passphrase decrypts without error (the
whole-stream read returns Ok), so the claim as stated is false. -/
theorem C3_counterexample :
    (decrypt_all [116, 101, 115, 116]
      ((spliceBlock (blockSeq
          (genKey [116, 101, 115, 116] (List.range 10)) (List.range 10) 0
          (padChunks (List.replicate 1024 1))) 0
        (mkBlock (genKey [116, 101, 115, 116] (List.replicate 10 9))
          (List.replicate 10 9) 0
          ((padChunks (List.replicate 512 2)).getD 0 []))).flatten)).isOk
      = true := by
  have hq : (padChunks (List.replicate 512 2)).getD 0 [] =
      List.replicate 512 2 := by
    rw [padChunks_small _ (replicate_ne_nil' 512 2 (by norm_num))
      (by rw [List.length_replicate]; decide)]
    rw [List.length_replicate]
    rw [show PAYLOAD_SIZE - 512 = 0 from rfl]
    rw [List.replicate_zero, List.append_nil]
    rfl
  have h1 : padChunks (List.replicate 1024 1) =
      [List.replicate 512 1, List.replicate 512 1] := by
    rw [padChunks_cons _ (by rw [List.length_replicate]; decide)]
    rw [show List.take PAYLOAD_SIZE (List.replicate 1024 1) =
      List.replicate 512 1 from by rw [List.take_replicate]; rfl]
    rw [show List.drop PAYLOAD_SIZE (List.replicate 1024 1) =
      List.replicate 512 1 from by rw [List.drop_replicate]; rfl]
    rw [padChunks_small _ (replicate_ne_nil' 512 1 (by norm_num))
      (by rw [List.length_replicate]; decide)]
    rw [List.length_replicate]
    rw [show PAYLOAD_SIZE - 512 = 0 from rfl]
    rw [List.replicate_zero, List.append_nil]
  rw [hq, h1]
  have h2 : spliceBlock (blockSeq
      (genKey [116, 101, 115, 116] (List.range 10)) (List.range 10) 0
      [List.replicate 512 1, List.replicate 512 1]) 0
      (mkBlock (genKey [116, 101, 115, 116] (List.replicate 10 9))
        (List.replicate 10 9) 0 (List.replicate 512 2)) =
      [mkBlock (genKey [116, 101, 115, 116] (List.replicate 10 9))
        (List.replicate 10 9) 0 (List.replicate 512 2),
       mkBlock (genKey [116, 101, 115, 116] (List.range 10))
        (List.range 10) 1 (List.replicate 512 1)] := by
    rw [blockSeq_cons, blockSeq_cons, blockSeq_nil]
    rfl
  rw [h2]
  have h3 : ([mkBlock (genKey [116, 101, 115, 116] (List.replicate 10 9))
      (List.replicate 10 9) 0 (List.replicate 512 2),
      mkBlock (genKey [116, 101, 115, 116] (List.range 10))
        (List.range 10) 1 (List.replicate 512 1)] :
      List (List Nat)).flatten =
      mkBlock (genKey [116, 101, 115, 116] (List.replicate 10 9))
        (List.replicate 10 9) 0 (List.replicate 512 2) ++
      mkBlock (genKey [116, 101, 115, 116] (List.range 10))
        (List.range 10) 1 (List.replicate 512 1) := by
    rw [List.flatten_cons, List.flatten_cons, List.flatten_nil,
      List.append_nil]
  rw [h3]
  rw [splice_head_two [116, 101, 115, 116] (List.range 10)
    (List.replicate 10 9) (List.replicate 512 2) (List.replicate 512 1)
    rfl (by rw [List.length_replicate]) (by decide)
    (by rw [List.length_replicate]; rfl) (by rw [List.length_replicate]; rfl)]
  rfl

/-- C3 witness: splicing a foreign block-0 into the interior position
`t = 1` of a three-block ciphertext is rejected. -/
theorem C3_splice_rejected_amended_witness :
    (List.range 10).length = 10 ∧ (List.replicate 10 9 : List Nat).length = 10 ∧
    (List.replicate 10 9 : List Nat) ≠ List.range 10 ∧
    (List.replicate 512 2 : List Nat).length = PAYLOAD_SIZE ∧
    1 ≤ 1 ∧ 1 + 2 ≤ (padChunks (List.replicate 1536 5)).length ∧
    (padChunks (List.replicate 1536 5)).length ≤ U32_MOD - 1 ∧
    decrypt_all [116, 101, 115, 116]
        ((spliceBlock (blockSeq
          (genKey [116, 101, 115, 116] (List.range 10)) (List.range 10) 0
          (padChunks (List.replicate 1536 5))) 1
          (mkBlock (genKey [116, 101, 115, 116] (List.replicate 10 9))
            (List.replicate 10 9) 0 (List.replicate 512 2))).flatten) =
      .error .invalidBlockCounter := by
  have hlen : (padChunks (List.replicate 1536 5)).length = 3 := by
    rw [padChunks_length, List.length_replicate]
    norm_num [PAYLOAD_SIZE]
  refine ⟨rfl, by rw [List.length_replicate], by decide,
    by rw [List.length_replicate]; rfl, le_refl 1,
    by rw [hlen], by rw [hlen]; norm_num [U32_MOD], ?_⟩
  exact C3_splice_rejected_amended [116, 101, 115, 116] (List.range 10)
    (List.replicate 10 9) (List.replicate 1536 5) (List.replicate 512 2) 1
    rfl (by rw [List.length_replicate]) (by decide)
    (by rw [List.length_replicate]; rfl) (le_refl 1)
    (by rw [hlen]) (by rw [hlen]; norm_num [U32_MOD])

/-- C1 (amended): for every passphrase, salt and plaintext `B` occupying
at most `2^32 - 1` blocks (`|B| ≤ (2^32 - 1) × PAYLOAD_SIZE`; the claim's
bound `2^32 × PAYLOAD_SIZE` fails, see the counterexample), writing `B`
through an `EncryptedWriter` (final zero-padded block emitted on drop)
succeeds, and reading the produced ciphertext to the end through an
`EncryptedReader` with the same passphrase succeeds and yields a byte
sequence whose first `|B|` bytes equal `B`. -/
theorem C1_roundtrip_amended (pass salt B : List Nat)
    (hs : salt.length = 10)
    (hlen : B.length ≤ (U32_MOD - 1) * PAYLOAD_SIZE) :
    ∃ ct out, encrypt_all pass salt B = .ok ct ∧
      decrypt_all pass ct = .ok out ∧
      out.take B.length = B ∧ B.length ≤ out.length := by
  have hn : (padChunks B).length ≤ U32_MOD - 1 := by
    rw [padChunks_length]
    simp only [PAYLOAD_SIZE, U32_MOD] at *
    omega
  refine ⟨_, _, encrypt_all_spec pass salt B hn,
    decrypt_blockSeq pass _ salt (padChunks B) rfl hs
      (padChunks_mem_length B) (by omega), ?_, ?_⟩
  · exact (padChunks_join B).1
  · exact (padChunks_join B).2

/-- C1 witness: a 5-byte plaintext round-trips. -/
theorem C1_roundtrip_amended_witness :
    (List.range 10).length = 10 ∧
    ([104, 101, 108, 108, 111] : List Nat).length ≤
      (U32_MOD - 1) * PAYLOAD_SIZE ∧
    ∃ ct out, encrypt_all [116, 101, 115, 116] (List.range 10)
        [104, 101, 108, 108, 111] = .ok ct ∧
      decrypt_all [116, 101, 115, 116] ct = .ok out ∧
      out.take ([104, 101, 108, 108, 111] : List Nat).length =
        [104, 101, 108, 108, 111] ∧
      ([104, 101, 108, 108, 111] : List Nat).length ≤ out.length :=
  ⟨rfl, by norm_num [U32_MOD, PAYLOAD_SIZE],
    C1_roundtrip_amended [116, 101, 115, 116] (List.range 10)
      [104, 101, 108, 108, 111] rfl (by norm_num [U32_MOD, PAYLOAD_SIZE])⟩

/-- C1 counterexample: at the claim's bound `|B| = 2^32 × PAYLOAD_SIZE`
the round-trip fails - emitting the final block leaves the counter at
u32::MAX, and the `checked_add` increment after that block errors the
`write` call, so writing `B` does not succeed. -/
theorem C1_counterexample :
    (encrypt_all [116, 101, 115, 116] (List.range 10)
      (List.replicate (4294967296 * 512) 0)).isOk = false := by
  rw [encrypt_all_err]
  · rfl
  · rw [padChunks_length, List.length_replicate]
    norm_num [PAYLOAD_SIZE, U32_MOD]

/-- C4: concatenation law. For every passphrase and every partition
`B = B1 ++ B2 ++ B3` into nonempty parts whose lengths are multiples of
`PAYLOAD_SIZE`, encrypting the parts independently under pairwise
distinct fresh salts (each within the writer's block-count capacity),
concatenating the three ciphertexts and decrypting the concatenation
with the same passphrase succeeds and yields exactly `B`. -/
theorem C4_concatenation (pass s1 s2 s3 B1 B2 B3 : List Nat)
    (hs1 : s1.length = 10) (hs2 : s2.length = 10) (hs3 : s3.length = 10)
    (h12 : s1 ≠ s2) (h13 : s1 ≠ s3) (h23 : s2 ≠ s3)
    (hm1 : B1.length % PAYLOAD_SIZE = 0) (hm2 : B2.length % PAYLOAD_SIZE = 0)
    (hm3 : B3.length % PAYLOAD_SIZE = 0)
    (hn1 : B1 ≠ []) (hn2 : B2 ≠ []) (hn3 : B3 ≠ [])
    (hb1 : B1.length ≤ (U32_MOD - 1) * PAYLOAD_SIZE)
    (hb2 : B2.length ≤ (U32_MOD - 1) * PAYLOAD_SIZE)
    (hb3 : B3.length ≤ (U32_MOD - 1) * PAYLOAD_SIZE) :
    ∃ ct1 ct2 ct3,
      encrypt_all pass s1 B1 = .ok ct1 ∧
      encrypt_all pass s2 B2 = .ok ct2 ∧
      encrypt_all pass s3 B3 = .ok ct3 ∧
      decrypt_all pass (ct1 ++ ct2 ++ ct3) = .ok (B1 ++ B2 ++ B3) := by
  have hcnt1 : (padChunks B1).length ≤ U32_MOD - 1 := by
    rw [padChunks_length]
    simp only [PAYLOAD_SIZE, U32_MOD] at *
    omega
  have hcnt2 : (padChunks B2).length ≤ U32_MOD - 1 := by
    rw [padChunks_length]
    simp only [PAYLOAD_SIZE, U32_MOD] at *
    omega
  have hcnt3 : (padChunks B3).length ≤ U32_MOD - 1 := by
    rw [padChunks_length]
    simp only [PAYLOAD_SIZE, U32_MOD] at *
    omega
  refine ⟨_, _, _, encrypt_all_spec pass s1 B1 hcnt1,
    encrypt_all_spec pass s2 B2 hcnt2, encrypt_all_spec pass s3 B3 hcnt3, ?_⟩
  rw [List.append_assoc]
  rw [decrypt_three_streams pass s1 s2 s3 (padChunks B1) (padChunks B2)
    (padChunks B3) hs1 hs2 hs3 h12 h13 h23
    (padChunks_ne_nil B1 hn1) (padChunks_ne_nil B2 hn2)
    (padChunks_ne_nil B3 hn3)
    (padChunks_mem_length B1) (padChunks_mem_length B2)
    (padChunks_mem_length B3)
    (le_trans hcnt1 (Nat.sub_le _ _)) (le_trans hcnt2 (Nat.sub_le _ _))
    (le_trans hcnt3 (Nat.sub_le _ _))]
  rw [padChunks_flatten_exact B1 hm1, padChunks_flatten_exact B2 hm2,
    padChunks_flatten_exact B3 hm3]

/-- C4 witness: three one-block plaintexts with distinct salts
concatenate and decrypt back to their concatenation. -/
theorem C4_concatenation_witness :
    (List.range 10).length = 10 ∧
    (List.replicate 10 9 : List Nat).length = 10 ∧
    (List.replicate 10 8 : List Nat).length = 10 ∧
    List.range 10 ≠ List.replicate 10 9 ∧
    List.range 10 ≠ List.replicate 10 8 ∧
    (List.replicate 10 9 : List Nat) ≠ List.replicate 10 8 ∧
    (List.replicate 512 1 : List Nat).length % PAYLOAD_SIZE = 0 ∧
    (List.replicate 512 2 : List Nat).length % PAYLOAD_SIZE = 0 ∧
    (List.replicate 1024 3 : List Nat).length % PAYLOAD_SIZE = 0 ∧
    (List.replicate 512 1 : List Nat) ≠ [] ∧
    (List.replicate 512 2 : List Nat) ≠ [] ∧
    (List.replicate 1024 3 : List Nat) ≠ [] ∧
    (List.replicate 512 1 : List Nat).length ≤ (U32_MOD - 1) * PAYLOAD_SIZE ∧
    (List.replicate 512 2 : List Nat).length ≤ (U32_MOD - 1) * PAYLOAD_SIZE ∧
    (List.replicate 1024 3 : List Nat).length ≤ (U32_MOD - 1) * PAYLOAD_SIZE ∧
    ∃ ct1 ct2 ct3,
      encrypt_all [116, 101, 115, 116] (List.range 10)
        (List.replicate 512 1) = .ok ct1 ∧
      encrypt_all [116, 101, 115, 116] (List.replicate 10 9)
        (List.replicate 512 2) = .ok ct2 ∧
      encrypt_all [116, 101, 115, 116] (List.replicate 10 8)
        (List.replicate 1024 3) = .ok ct3 ∧
      decrypt_all [116, 101, 115, 116] (ct1 ++ ct2 ++ ct3) =
        .ok (List.replicate 512 1 ++ List.replicate 512 2 ++
          List.replicate 1024 3) :=
  ⟨rfl, by rw [List.length_replicate], by rw [List.length_replicate],
    by decide, by decide, by decide,
    by rw [List.length_replicate]; rfl, by rw [List.length_replicate]; rfl,
    by rw [List.length_replicate]; rfl,
    replicate_ne_nil' 512 1 (by norm_num), replicate_ne_nil' 512 2
      (by norm_num), replicate_ne_nil' 1024 3 (by norm_num),
    by rw [List.length_replicate]; norm_num [U32_MOD, PAYLOAD_SIZE],
    by rw [List.length_replicate]; norm_num [U32_MOD, PAYLOAD_SIZE],
    by rw [List.length_replicate]; norm_num [U32_MOD, PAYLOAD_SIZE],
    C4_concatenation [116, 101, 115, 116] (List.range 10)
      (List.replicate 10 9) (List.replicate 10 8)
      (List.replicate 512 1) (List.replicate 512 2) (List.replicate 1024 3)
      rfl (by rw [List.length_replicate]) (by rw [List.length_replicate])
      (by decide) (by decide) (by decide)
      (by rw [List.length_replicate]; rfl)
      (by rw [List.length_replicate]; rfl)
      (by rw [List.length_replicate]; rfl)
      (replicate_ne_nil' 512 1 (by norm_num))
      (replicate_ne_nil' 512 2 (by norm_num))
      (replicate_ne_nil' 1024 3 (by norm_num))
      (by rw [List.length_replicate]; norm_num [U32_MOD, PAYLOAD_SIZE])
      (by rw [List.length_replicate]; norm_num [U32_MOD, PAYLOAD_SIZE])
      (by rw [List.length_replicate]; norm_num [U32_MOD, PAYLOAD_SIZE])⟩

/-- C8: key derivation is deterministic and returns a 32-byte key - two
calls with the same passphrase and header salt agree - but it is not
pure: `generate_key` also produces a nonempty stderr trace (two
`eprintln!` statements printing the derived key and the derivation
salt), an observable effect beyond returning the key, so the purity part
of the claim fails in the code. -/
theorem C8_keygen (pass : List Nat) (h1 h2 : Header)
    (hsalt : h1.salt = h2.salt) :
    (generate_key pass h1).length = 32 ∧
    generate_key pass h1 = generate_key pass h2 ∧
    (generate_key_full pass h1).2 =
      [generate_key pass h1, h1.salt ++ [35, 116, 111, 99]] ∧
    (generate_key_full pass h1).2 ≠ [] := by
  refine ⟨?_, ?_, rfl, ?_⟩
  · rw [generate_key, generate_key_full, argon2_hash_raw]
    rw [List.length_map, List.length_range]
  · rw [generate_key, generate_key, generate_key_full, generate_key_full,
      hsalt]
  · intro hc
    have := congrArg List.length hc
    simp [generate_key_full] at this

/-- C8 witness: two headers sharing the salt `0..9` but with different
block counters derive the same 32-byte key, and the stderr trace names
the key and the salt. -/
theorem C8_keygen_witness :
    (writerHeader 0 (List.range 10)).salt =
      (writerHeader 5 (List.range 10)).salt ∧
    ((generate_key [116, 101, 115, 116]
        (writerHeader 0 (List.range 10))).length = 32 ∧
      generate_key [116, 101, 115, 116] (writerHeader 0 (List.range 10)) =
        generate_key [116, 101, 115, 116] (writerHeader 5 (List.range 10)) ∧
      (generate_key_full [116, 101, 115, 116]
          (writerHeader 0 (List.range 10))).2 =
        [generate_key [116, 101, 115, 116] (writerHeader 0 (List.range 10)),
          (writerHeader 0 (List.range 10)).salt ++ [35, 116, 111, 99]] ∧
      (generate_key_full [116, 101, 115, 116]
          (writerHeader 0 (List.range 10))).2 ≠ []) :=
  ⟨rfl, C8_keygen [116, 101, 115, 116] (writerHeader 0 (List.range 10))
    (writerHeader 5 (List.range 10)) rfl⟩

/-- A writer state with three buffered payload bytes, as left by a
`write` of fewer than 512 bytes. -/
def dropSample : WriterState :=
  { key := genKey [116, 101, 115, 116] (List.range 10),
    salt := List.range 10, blockcounter := 0, buf := [7, 8, 9], out := [] }

/-- C10: a writer dropped with a nonempty payload buffer zero-pads the
buffer to a full 512-byte payload and emits exactly one final block
(when the sink accepts it and the counter can advance); when the sink
write fails, or the `checked_add` counter increment fails, the
destructor's `unwrap` panics (`none`), so no error reaches the
caller. -/
theorem C10_drop (w : WriterState) (hbuf : 0 < w.buf.length)
    (hle : w.buf.length ≤ PAYLOAD_SIZE) :
    (w.buf ++ List.replicate (PAYLOAD_SIZE - w.buf.length) 0).length
      = PAYLOAD_SIZE ∧
    (w.blockcounter ≠ U32_MOD - 1 →
      writerDropSink w true = some { w with
        out := w.out ++ mkBlock w.key w.salt w.blockcounter
          (w.buf ++ List.replicate (PAYLOAD_SIZE - w.buf.length) 0),
        blockcounter := w.blockcounter + 1 }) ∧
    writerDropSink w false = none ∧
    (w.blockcounter = U32_MOD - 1 → writerDropSink w true = none) := by
  refine ⟨?_, ?_, ?_, ?_⟩
  · rw [List.length_append, List.length_replicate]
    omega
  · intro hne
    rw [writerDropSink, if_pos hbuf]
    rw [show write_chunk_sink w true = write_chunk w from rfl,
      write_chunk_ok w hne]
  · rw [writerDropSink, if_pos hbuf]
    rw [show write_chunk_sink w false = .error .ioErr from rfl]
  · intro hmax
    rw [writerDropSink, if_pos hbuf]
    rw [show write_chunk_sink w true = write_chunk w from rfl,
      write_chunk_err w hmax]

/-- C10 witness: the three-byte-buffer writer state - the padded payload
is 512 bytes, a healthy drop emits the one final block, a failing-sink
drop panics. -/
theorem C10_drop_witness :
    0 < dropSample.buf.length ∧ dropSample.buf.length ≤ PAYLOAD_SIZE ∧
    ((dropSample.buf ++
        List.replicate (PAYLOAD_SIZE - dropSample.buf.length) 0).length
      = PAYLOAD_SIZE ∧
    (dropSample.blockcounter ≠ U32_MOD - 1 →
      writerDropSink dropSample true = some { dropSample with
        out := dropSample.out ++ mkBlock dropSample.key dropSample.salt
          dropSample.blockcounter (dropSample.buf ++
            List.replicate (PAYLOAD_SIZE - dropSample.buf.length) 0),
        blockcounter := dropSample.blockcounter + 1 }) ∧
    writerDropSink dropSample false = none ∧
    (dropSample.blockcounter = U32_MOD - 1 →
      writerDropSink dropSample true = none)) :=
  ⟨by decide, by decide, C10_drop dropSample (by decide) (by decide)⟩

set_option maxRecDepth 4000 in
/-- C6: the claimed acceptance rule - accepted iff `blockcounter >= 16`
or `magic = MAGIC[blockcounter % 256]`, over the table whose first 16
bytes are `#toc#stream_____` - is exactly `Header::magic_ok` from
mod.rs (first two conjuncts). But the reader's decode path never calls
`magic_ok`: the guard written at reader.rs line 110 compares the magic
byte against the entire 256-byte table, a comparison that can never
hold, so under the source's own guard every block - including one
satisfying the claimed rule - is rejected with `InvalidHeader` (third
conjunct). The claim's iff does not describe the code as written. -/
theorem C6_magic_verification (h : Header) (r : ReaderState)
    (block : List Nat) :
    (h.magic_ok = true ↔
      (16 ≤ h.blockcounter ∨
        h.magic = MAGIC.getD (h.blockcounter % 256) 0)) ∧
    MAGIC.take 16 = [35, 116, 111, 99, 35, 115, 116, 114, 101, 97, 109,
      95, 95, 95, 95, 95] ∧
    decode_block_literal_guard r block = .error .invalidHeader := by
  refine ⟨?_, rfl, ?_⟩
  · rw [Header.magic_ok]
    rw [Bool.or_eq_true, decide_eq_true_iff, decide_eq_true_iff]
  · rw [decode_block_literal_guard]
    rw [if_pos ?_]
    intro hc
    have hl := congrArg List.length hc
    have h256 : MAGIC.length = 256 := rfl
    rw [h256, List.length_cons, List.length_nil] at hl
    exact absurd hl (by norm_num)

/-- A fresh reader over a one-block ciphertext (payload 512 × 0x01,
salt `0..9`), chunk cursor parked at PAYLOAD_SIZE. -/
def c9reader : ReaderState :=
  mkReader (mkBlock (genKey [116, 101, 115, 116] (List.range 10))
      (List.range 10) 0 (List.replicate 512 1)) 0 [116, 101, 115, 116] []
    none PAYLOAD_SIZE (List.replicate PAYLOAD_SIZE 0) (PAYLOAD_SIZE * 0)

/-- The state `c9reader` reaches after fetching and decoding its first
block. -/
def c9reader' : ReaderState :=
  mkReader (mkBlock (genKey [116, 101, 115, 116] (List.range 10))
      (List.range 10) 0 (List.replicate 512 1)) (0 + BLOCK_SIZE)
    [116, 101, 115, 116]
    [(List.range 10, mkStream (genKey [116, 101, 115, 116] (List.range 10))
      (((0 : Nat) : Int) - ((0 : Nat) : Int)) none)]
    (some (List.range 10)) 0 (List.replicate 512 1) (PAYLOAD_SIZE * 0)

/-- A zero-capacity `readCore` copies nothing and moves nothing. -/
lemma readCore_zero (r : ReaderState) : readCore r 0 = (r, []) := by
  simp [readCore]

/-- C9: for every reader whose current block is exhausted (cursor at
PAYLOAD_SIZE, as immediately after construction) and whose source yields
a decodable block, a `read` with a zero-length buffer still fetches and
decrypts one full 544-byte block - the source advances by BLOCK_SIZE and
the cursor lands at 0 over the fresh payload - and returns `Ok(0)` (no
bytes copied out); the source was not at end of stream, so a 0 return
from `read` with an empty caller buffer does not imply end of
stream. -/
theorem C9_zero_length_read (r r' : ReaderState)
    (hpos : r.current_chunk_position = PAYLOAD_SIZE)
    (hchunk : read_chunk r = .ok (true, r')) :
    read r 0 = .ok (r', []) ∧
    r.inner.data.drop r.inner.ipos ≠ [] ∧
    r'.inner.ipos = r.inner.ipos + BLOCK_SIZE ∧
    r'.current_chunk_position = 0 := by
  obtain ⟨hne, hipos, -, hcur⟩ := read_chunk_inv r r' hchunk
  refine ⟨?_, hne, hipos, hcur⟩
  rw [read, if_pos hpos, hchunk]
  dsimp only []
  rw [readCore_zero]

/-- C9 witness: the fresh reader over a one-block ciphertext - a
zero-length `read` consumes and decrypts the whole block and returns no
bytes even though the source was not at end of stream. -/
theorem C9_zero_length_read_witness :
    c9reader.current_chunk_position = PAYLOAD_SIZE ∧
    read_chunk c9reader = .ok (true, c9reader') ∧
    (read c9reader 0 = .ok (c9reader', []) ∧
      c9reader.inner.data.drop c9reader.inner.ipos ≠ [] ∧
      c9reader'.inner.ipos = c9reader.inner.ipos + BLOCK_SIZE ∧
      c9reader'.current_chunk_position = 0) := by
  have hchunk : read_chunk c9reader = .ok (true, c9reader') :=
    read_chunk_fresh_none
      (mkBlock (genKey [116, 101, 115, 116] (List.range 10))
        (List.range 10) 0 (List.replicate 512 1)) 0 [116, 101, 115, 116]
      (genKey [116, 101, 115, 116] (List.range 10)) (List.range 10) []
      PAYLOAD_SIZE (List.replicate PAYLOAD_SIZE 0) 0 0
      (List.replicate 512 1) [] rfl (by rw [List.length_replicate]; rfl)
      (by decide) (by rw [List.drop_zero, List.append_nil]) rfl rfl
      (le_refl 0)
  exact ⟨rfl, hchunk, C9_zero_length_read c9reader c9reader' rfl hchunk⟩

/-- C7 (amended): when the source's first read for a block returns a
nonzero count short of BLOCK_SIZE and the source cannot supply the rest
of the 544 bytes (fewer than BLOCK_SIZE bytes in total), the completing
`read_exact` hits end of stream and the fetch fails with
`InvalidChunk`. When the rest of the block is available, `read_exact`
completes it and no error is raised (see the counterexample), so the
claim's unconditional failure is wrong. -/
theorem C7_short_read_amended (r : ReaderState) (src src' : List (List Nat))
    (first : List Nat)
    (hfirst : segRead src BLOCK_SIZE = (first, src'))
    (hne : first ≠ [])
    (htot : (src.flatten).length < BLOCK_SIZE) :
    read_chunk_seg r src = .error .invalidChunk := by
  have hcons := segRead_conserve src BLOCK_SIZE
  rw [hfirst] at hcons
  dsimp only [] at hcons
  dsimp only [read_chunk_seg]
  rw [hfirst]
  cases first with
  | nil => exact absurd rfl hne
  | cons b bs =>
    dsimp only []
    have h544 : BLOCK_SIZE = 544 := rfl
    rw [if_neg (by omega)]
    rw [segFill_insufficient (BLOCK_SIZE + 1) src'
      (BLOCK_SIZE - (b :: bs).length) (b :: bs)
      (by omega) (by omega) (by omega)]

/-- C7 witness for the amended theorem: a source holding only three
bytes - the first read returns 3 bytes (neither 0 nor 544), the
completing `read_exact` hits end of stream, the fetch fails with
`InvalidChunk`. -/
theorem C7_short_read_amended_witness :
    segRead [[1, 2, 3]] BLOCK_SIZE = ([1, 2, 3], []) ∧
    ([1, 2, 3] : List Nat) ≠ [] ∧
    ((([[1, 2, 3]] : List (List Nat))).flatten).length < BLOCK_SIZE ∧
    read_chunk_seg (mkReader [] 0 [] [] none PAYLOAD_SIZE [] 0)
      [[1, 2, 3]] = .error .invalidChunk :=
  ⟨rfl, by decide, by decide,
    C7_short_read_amended (mkReader [] 0 [] [] none PAYLOAD_SIZE [] 0)
      [[1, 2, 3]] [] [1, 2, 3] rfl (by decide) (by decide)⟩

/-- A genuine one-block ciphertext (counter 0, salt `0..9`, payload
512 × 0x01), used to exercise the short-read path. -/
def c7block : List Nat :=
  mkBlock (genKey [116, 101, 115, 116] (List.range 10)) (List.range 10) 0
    (List.replicate 512 1)

/-- C7 counterexample: the claim says a source read count that is
neither 0 nor 544 always makes the reader fail with `InvalidChunk`, for
every reader state and every source. But a source that serves a valid
544-byte block in a 100-byte read followed by the 444-byte remainder is
accepted: the first read returns 100 bytes, `read_exact` completes the
block, and the fetch decodes it successfully. -/
theorem C7_counterexample :
    (segRead [c7block.take 100, c7block.drop 100] BLOCK_SIZE).1.length
      = 100 ∧
    (segRead [c7block.take 100, c7block.drop 100] BLOCK_SIZE).1.length
      ≠ 0 ∧
    (segRead [c7block.take 100, c7block.drop 100] BLOCK_SIZE).1.length
      ≠ BLOCK_SIZE ∧
    (read_chunk_seg (mkReader [] 0 [116, 101, 115, 116] [] none
        PAYLOAD_SIZE (List.replicate PAYLOAD_SIZE 0) (PAYLOAD_SIZE * 0))
      [c7block.take 100, c7block.drop 100]).isOk = true := by
  have h544 : BLOCK_SIZE = 544 := rfl
  have hlenB : c7block.length = BLOCK_SIZE :=
    mkBlock_length _ _ 0 _ rfl (by rw [List.length_replicate]; rfl)
  have htk : (c7block.take 100).length = 100 := by
    rw [List.length_take, hlenB, h544]
    decide
  have hseg1 : segRead [c7block.take 100, c7block.drop 100] BLOCK_SIZE =
      (c7block.take 100, [c7block.drop 100]) := by
    simp only [segRead]
    rw [if_pos (by rw [htk, h544]; decide)]
  refine ⟨by rw [hseg1]; exact htk, by rw [hseg1, htk]; decide,
    by rw [hseg1, htk, h544]; decide, ?_⟩
  dsimp only [read_chunk_seg, mkReader]
  rw [hseg1]
  cases hfc : c7block.take 100 with
  | nil =>
    rw [hfc] at htk
    simp at htk
  | cons b bs =>
    rw [hfc] at htk
    dsimp only []
    rw [if_neg (by rw [htk, h544]; decide)]
    have hdlen : (c7block.drop 100).length = BLOCK_SIZE - (b :: bs).length := by
      rw [List.length_drop, hlenB, htk]
    have hdne : c7block.drop 100 ≠ [] := by
      intro hcon
      have hl := congrArg List.length hcon
      rw [List.length_drop, hlenB, h544] at hl
      exact absurd hl (by decide)
    rw [show BLOCK_SIZE + 1 = 543 + 2 from rfl]
    rw [segFill_exact 543 (c7block.drop 100) [] (BLOCK_SIZE - (b :: bs).length)
      (b :: bs) hdne hdlen (by rw [htk, h544]; decide)]
    dsimp only []
    rw [show (b :: bs) ++ c7block.drop 100 = c7block from by
      rw [← hfc, List.take_append_drop]]
    have hdec := decode_block_fresh_none [] 0 [116, 101, 115, 116]
      (genKey [116, 101, 115, 116] (List.range 10)) (List.range 10) []
      (List.replicate PAYLOAD_SIZE 0) 0 0 (List.replicate 512 1) rfl
      (by rw [List.length_replicate]; rfl) (by decide) rfl rfl (le_refl 0)
    dsimp only [mkReader, mkStream] at hdec
    rw [show c7block = mkBlock (genKey [116, 101, 115, 116] (List.range 10))
      (List.range 10) 0 (List.replicate 512 1) from rfl]
    rw [hdec]
    rfl

/-- C5: seek correctness. For every plaintext `B` encrypted under a
passphrase (salt fresh, within the writer's capacity) and every
`(offset, length)` with `offset + length ≤ |B| - (|B| mod
PAYLOAD_SIZE)`, seeking the reader to `offset` and reading `length`
bytes succeeds and returns exactly `B[offset .. offset+length]`. -/
theorem C5_seek_correct (pass s B : List Nat) (off len : Nat)
    (hs : s.length = 10)
    (hcap : (padChunks B).length ≤ U32_MOD - 1)
    (hbound : off + len ≤ B.length - B.length % PAYLOAD_SIZE) :
    ∃ ct, encrypt_all pass s B = .ok ct ∧
      seek_read pass ct off len = .ok ((B.drop off).take len) := by
  refine ⟨_, encrypt_all_spec pass s B hcap, ?_⟩
  have hplen := padChunks_length B
  have hcnt' : (padChunks B).length ≤ U32_MOD :=
    le_trans hcap (Nat.sub_le _ _)
  by_cases h0 : len = 0
  · subst h0
    by_cases hteof : off / PAYLOAD_SIZE < (padChunks B).length
    · rw [seek_read, seekStart_spec pass (genKey pass s) s (padChunks B)
        off hs rfl (padChunks_mem_length B) hcnt' hteof]
      dsimp only []
      rw [read_exact_zero]
      dsimp only []
      rw [List.take_zero]
    · push_neg at hteof
      have hctlen :
          ((blockSeq (genKey pass s) s 0 (padChunks B)).flatten).length
            = BLOCK_SIZE * (padChunks B).length :=
        blockSeq_join_length (genKey pass s) s hs (padChunks B) 0
          (padChunks_mem_length B)
      have hrem :
          ((blockSeq (genKey pass s) s 0 (padChunks B)).flatten).drop
            (off / PAYLOAD_SIZE * BLOCK_SIZE) = [] := by
        refine List.drop_eq_nil_of_le ?_
        rw [hctlen]
        have h544 : BLOCK_SIZE = 544 := rfl
        rw [h544]
        omega
      rw [seek_read, seekStart_end pass _ off hrem]
      dsimp only []
      rw [read_exact_zero]
      dsimp only []
      rw [List.take_zero]
  · have ht : off / PAYLOAD_SIZE < (padChunks B).length := by
      rw [hplen]
      simp only [PAYLOAD_SIZE] at *
      omega
    have hpl : ((padChunks B).getD (off / PAYLOAD_SIZE) []).length =
        PAYLOAD_SIZE := by
      rw [List.getD_eq_getElem (padChunks B) [] ht]
      exact padChunks_mem_length B _ (List.getElem_mem ht)
    rw [seek_read, seekStart_spec pass (genKey pass s) s (padChunks B)
      off hs rfl (padChunks_mem_length B) hcnt' ht]
    dsimp only []
    have hrem :
        ((blockSeq (genKey pass s) s 0 (padChunks B)).flatten).drop
          (off / PAYLOAD_SIZE * BLOCK_SIZE + BLOCK_SIZE) =
        (blockSeq (genKey pass s) s (off / PAYLOAD_SIZE + 1)
          ((padChunks B).drop (off / PAYLOAD_SIZE + 1))).flatten ++ [] := by
      rw [List.append_nil]
      rw [show off / PAYLOAD_SIZE * BLOCK_SIZE + BLOCK_SIZE =
        BLOCK_SIZE * (off / PAYLOAD_SIZE + 1) from by ring]
      rw [blockSeq_flatten_drop (genKey pass s) s hs
        (off / PAYLOAD_SIZE + 1) (padChunks B) 0 (padChunks_mem_length B)]
      rw [Nat.zero_add]
    obtain ⟨r', hr'⟩ := read_exact_mid
      ((padChunks B).drop (off / PAYLOAD_SIZE + 1)) (len + 1) len
      ((blockSeq (genKey pass s) s 0 (padChunks B)).flatten)
      (off / PAYLOAD_SIZE * BLOCK_SIZE + BLOCK_SIZE) pass (genKey pass s)
      s [(s, mkStream (genKey pass s)
        (((off / PAYLOAD_SIZE : Nat) : Int) -
          ((off / PAYLOAD_SIZE : Nat) : Int)) none)]
      (mkStream (genKey pass s)
        (((off / PAYLOAD_SIZE : Nat) : Int) -
          ((off / PAYLOAD_SIZE : Nat) : Int)) none)
      (off % PAYLOAD_SIZE) ((padChunks B).getD (off / PAYLOAD_SIZE) [])
      (off / PAYLOAD_SIZE) (off / PAYLOAD_SIZE + 1) [] []
      (fun q hq => padChunks_mem_length B q (List.mem_of_mem_drop hq)) hs
      (by rw [List.length_drop]
          simp only [U32_MOD] at *
          omega)
      hpl (Nat.mod_lt off (by norm_num [PAYLOAD_SIZE])) h0
      (by rw [List.length_drop, hplen]
          simp only [PAYLOAD_SIZE] at *
          omega)
      (Nat.lt_succ_self len)
      hrem (lookup_pair_eq s _ []) rfl rfl
      (by simp [mkStream])
    rw [hr']
    dsimp only []
    rw [List.nil_append]
    rw [flatten_drop_chunks (padChunks B) (off / PAYLOAD_SIZE)
      (off % PAYLOAD_SIZE) (padChunks_mem_length B) ht
      (le_of_lt (Nat.mod_lt off (by norm_num [PAYLOAD_SIZE])))]
    rw [Nat.div_add_mod off PAYLOAD_SIZE]
    conv_rhs => rw [← (padChunks_join B).1]
    rw [List.drop_take]
    rw [List.take_take]
    rw [Nat.min_eq_left (by simp only [PAYLOAD_SIZE] at *; omega)]

/-- C5 witness: a 1024-byte plaintext, seek to offset 700 and read 200
bytes across the block boundary. -/
theorem C5_seek_correct_witness :
    (List.range 10).length = 10 ∧
    (padChunks (List.replicate 1024 4)).length ≤ U32_MOD - 1 ∧
    700 + 200 ≤ (List.replicate 1024 4 : List Nat).length -
      (List.replicate 1024 4 : List Nat).length % PAYLOAD_SIZE ∧
    ∃ ct, encrypt_all [116, 101, 115, 116] (List.range 10)
        (List.replicate 1024 4) = .ok ct ∧
      seek_read [116, 101, 115, 116] ct 700 200 =
        .ok (((List.replicate 1024 4 : List Nat).drop 700).take 200) :=
  ⟨rfl,
    by rw [padChunks_length, List.length_replicate]
       norm_num [PAYLOAD_SIZE, U32_MOD],
    by rw [List.length_replicate]
       decide,
    C5_seek_correct [116, 101, 115, 116] (List.range 10)
      (List.replicate 1024 4) 700 200 rfl
      (by rw [padChunks_length, List.length_replicate]
          norm_num [PAYLOAD_SIZE, U32_MOD])
      (by rw [List.length_replicate]
          decide)⟩

end Piper
